import Mathlib

/-! League matrix service: embedding of `main.go`.

The program reads a CSV file into `records [][]string`, validates it with
`Matrix.isValid` and answers with one of five renderings.  This file embeds the
`Matrix` methods as Lean functions and proves properties of them.

Conventions of the embedding.

* A Go `string` is a sequence of bytes; it is embedded as `List (Fin 256)`.  `str`
  turns an ASCII literal into that form.
* `error` values are embedded by their text: `none` is Go's `nil`.
* A run-time panic (index or slice bound out of range) is the `none` of an
  `Option` result.
* `int`, `int64` and `uint64` are 64 bits wide (`intSize = 64`); machine arithmetic
  is written with explicit wrap-around.  `big.Int` is `Int`.
* The functions of the Go standard library that the methods call (`strings.Trim`,
  `strings.Join`, `strconv.Atoi`, `strconv.ParseInt`, `strconv.ParseUint`,
  `strconv.Quote`, `big.Int.String`) are embedded from the library's source.
-/

namespace LeagueMatrix

/-- A byte. -/
abbrev Byte := Fin 256

/-- A Go string, as its sequence of bytes. -/
abbrev GoString := List Byte

/-- The bytes of an ASCII literal. -/
def str (s : String) : GoString := s.toList.map (fun c => Fin.ofNat c.toNat)

/-! ## `strings` -/

/-- Go `strings.Trim(s, " ")`: the cutset is the single ASCII byte `0x20`, so the
library takes the branch `trimLeftByte(trimRightByte(s, c), c)`. -/
def Trim (s : GoString) : GoString :=
  (s.rdropWhile (fun c => c == 32)).dropWhile (fun c => c == 32)

/-- Go `strings.Join(elems, sep)`. -/
def Join (elems : List GoString) (sep : GoString) : GoString :=
  match elems with
  | [] => []
  | [e] => e
  | e :: rest => e ++ sep ++ Join rest sep

/-! ## `strconv` -/

/-- The two sentinel errors `strconv.ErrSyntax` and `strconv.ErrRange`. -/
inductive ConvErr where
  | ErrSyntax
  | ErrRange
  deriving DecidableEq, Repr

/-- Go `strconv.NumError`. -/
structure NumError where
  Func : GoString
  Num : GoString
  Err : ConvErr
  deriving DecidableEq, Repr

/-- The text of the sentinel errors. -/
def ConvErr.Error : ConvErr → GoString
  | .ErrSyntax => str "invalid syntax"
  | .ErrRange => str "value out of range"

/-- The digit table `lowerhex` of `strconv`. -/
def lowerhex (n : Nat) : Byte :=
  if n < 10 then Fin.ofNat (48 + n) else Fin.ofNat (87 + n)

/-- Go `appendEscapedRune` of `strconv` for a rune below `utf8.RuneSelf`, with
`quote = '"'`, `ASCIIonly = false`, `graphicOnly = false`.  For such a rune
`IsPrint(r)` is `0x20 <= r < 0x7F`. -/
def escapeASCII (r : Byte) : GoString :=
  if r == 34 || r == 92 then [92, r]
  else if 32 ≤ r.val && r.val < 127 then [r]
  else if r == 7 then str "\\a"
  else if r == 8 then str "\\b"
  else if r == 12 then str "\\f"
  else if r == 10 then str "\\n"
  else if r == 13 then str "\\r"
  else if r == 9 then str "\\t"
  else if r == 11 then str "\\v"
  else str "\\x" ++ [lowerhex (r.val / 16), lowerhex (r.val % 16)]

/-- Go `strconv.Quote(s)`.  When every byte of `s` is below `utf8.RuneSelf` the
loop of `appendQuotedWith` escapes the bytes one by one.  A string with a byte
from `0x80` on goes through the UTF-8 decoder and the printability tables of the
`unicode` package; that part of the library is the parameter `uni`. -/
def Quote (uni : GoString → GoString) (s : GoString) : GoString :=
  if s.all (fun c => c.val < 128) then [34] ++ (s.map escapeASCII).flatten ++ [34]
  else uni s

/-- Go `(*NumError).Error()`. -/
def NumError.Error (uni : GoString → GoString) (e : NumError) : GoString :=
  str "strconv." ++ e.Func ++ str ": parsing " ++ Quote uni e.Num ++ str ": " ++ e.Err.Error

/-- Go `syntaxError(fn, str)`. -/
def syntaxError (fn s : GoString) : NumError := ⟨fn, s, .ErrSyntax⟩

/-- Go `rangeError(fn, str)`. -/
def rangeError (fn s : GoString) : NumError := ⟨fn, s, .ErrRange⟩

/-- Width of `int` on the platform. -/
def intSize : Nat := 64

/-- The constant `maxUint64`. -/
def maxUint64 : Nat := 2 ^ 64 - 1

/-- Go `lower(c)` of `strconv`: `c | ('x' - 'X')`. -/
def lower (c : Byte) : Nat := c.val ||| 32

/-- The digit loop of `strconv.ParseUint(s, 10, bitSize)` from accumulator `n`,
over the remaining bytes.  `s0` is the whole argument, kept for the error
value; `maxVal` is `1<<bitSize - 1`.  The accumulator is a `uint64`. -/
def parseUintLoop (s0 : GoString) (maxVal : Nat) : List Byte → Nat → Nat × Option NumError
  | [], n => (n, none)
  | c :: cs, n =>
    if 48 ≤ c.val ∧ c.val ≤ 57 then
      let d := c.val - 48
      if d ≥ 10 then (0, some (syntaxError (str "ParseUint") s0))
      else if n ≥ maxUint64 / 10 + 1 then (maxVal, some (rangeError (str "ParseUint") s0))
      else
        let n10 := (n * 10) % 2 ^ 64
        let n1 := (n10 + d) % 2 ^ 64
        if n1 < n10 ∨ n1 > maxVal then (maxVal, some (rangeError (str "ParseUint") s0))
        else parseUintLoop s0 maxVal cs n1
    else if 97 ≤ lower c ∧ lower c ≤ 122 then
      let d := lower c - 97 + 10
      if d ≥ 10 then (0, some (syntaxError (str "ParseUint") s0))
      else (0, some (syntaxError (str "ParseUint") s0))
    else (0, some (syntaxError (str "ParseUint") s0))

/-- Go `strconv.ParseUint(s, 10, bitSize)` for `bitSize` 0 or at most 64.  With base
10 the underscore case of the loop is never taken. -/
def ParseUint (s : GoString) (bitSize : Nat) : Nat × Option NumError :=
  if s = [] then (0, some (syntaxError (str "ParseUint") s))
  else
    let bitSize := if bitSize = 0 then intSize else bitSize
    parseUintLoop s (2 ^ bitSize - 1) s 0

/-- Go `strconv.ParseInt(s, 10, bitSize)`. -/
def ParseInt (s : GoString) (bitSize : Nat) : Int × Option NumError :=
  match s with
  | [] => (0, some (syntaxError (str "ParseInt") s))
  | c :: rest =>
    let s0 := s
    let neg := c == 45
    let s := if c == 43 then rest else if c == 45 then rest else s
    match ParseUint s bitSize with
    | (_, some ⟨_, _, .ErrSyntax⟩) => (0, some ⟨str "ParseInt", s0, .ErrSyntax⟩)
    | (un, _) =>
      let bitSize := if bitSize = 0 then intSize else bitSize
      let cutoff := 2 ^ (bitSize - 1)
      if !neg && un ≥ cutoff then ((cutoff : Int) - 1, some (rangeError (str "ParseInt") s0))
      else if neg && un > cutoff then (-(cutoff : Int), some (rangeError (str "ParseInt") s0))
      else
        let n : Int := ((un : Int) + 2 ^ 63) % 2 ^ 64 - 2 ^ 63
        (if neg then (-n + 2 ^ 63) % 2 ^ 64 - 2 ^ 63 else n, none)

/-- The digit loop of the fast path of `strconv.Atoi`; `n` is an `int`. -/
def atoiLoop (s0 : GoString) : List Byte → Int → Int × Option NumError
  | [], n => (n, none)
  | ch :: cs, n =>
    let ch := (ch.val + 256 - 48) % 256
    if ch > 9 then (0, some (syntaxError (str "Atoi") s0))
    else atoiLoop s0 cs ((n * 10 + (ch : Int) + 2 ^ 63) % 2 ^ 64 - 2 ^ 63)

/-- Go `strconv.Atoi(s)`. -/
def Atoi (s : GoString) : Int × Option NumError :=
  let sLen := s.length
  if intSize = 32 ∧ (0 < sLen ∧ sLen < 10) ∨ intSize = 64 ∧ (0 < sLen ∧ sLen < 19) then
    let s0 := s
    let first : Byte := s.headD 0
    let s := if first == 45 || first == 43 then s.tail else s
    if (first == 45 || first == 43) && s.length < 1 then (0, some (syntaxError (str "Atoi") s0))
    else
      match atoiLoop s0 s 0 with
      | (_, some e) => (0, some e)
      | (n, none) => (if first == 45 then (-n + 2 ^ 63) % 2 ^ 64 - 2 ^ 63 else n, none)
  else
    match ParseInt s 0 with
    | (i64, some e) => (i64, some ⟨str "Atoi", e.Num, e.Err⟩)
    | (i64, none) => (i64, none)

/-! ## `math/big` -/

/-- Go `(*big.Int).String()`: the decimal text, with a leading minus sign for a
negative value. -/
def bigString (x : Int) : GoString :=
  if x < 0 then str "-" ++ str (Nat.repr x.natAbs) else str (Nat.repr x.natAbs)

/-! ## The program -/

def errMatrixEmpty : GoString := str "invalid input: empty matrix\n"

def errMatrixNotSquare : GoString := str "invalid input: matrix is not square\n"

def errMatrixInvalidNumber : GoString := str "invalid input: matrix has invalid number format\n"

/-- The type `Matrix` of the program. -/
structure Matrix where
  records : List (List GoString)
  deriving DecidableEq, Repr

/-- The text `errMsg` that `isValid` builds from the error `err` of `strconv.Atoi`. -/
def errMsg (uni : GoString → GoString) (err : NumError) : GoString :=
  errMatrixInvalidNumber ++ str "\tCaused by: " ++ err.Error uni ++ str "\n"

/-- The inner loop `for _, element := range row` of `isValid`; `some e` is the
`return errors.New(errMsg)` and `none` is the end of the loop. -/
def isValidElements (uni : GoString → GoString) : List GoString → Option GoString
  | [] => none
  | element :: rest =>
    match (Atoi (Trim element)).2 with
    | some err => some (errMsg uni err)
    | none => isValidElements uni rest

/-- The outer loop `for _, row := range m.records` of `isValid`. -/
def isValidRows (uni : GoString → GoString) (matrixSize : Nat) :
    List (List GoString) → Option GoString
  | [] => none
  | row :: rest =>
    let rowSize := row.length
    if rowSize ≠ matrixSize then some errMatrixNotSquare
    else
      match isValidElements uni row with
      | some e => some e
      | none => isValidRows uni matrixSize rest

/-- The method `(m *Matrix) isValid() error`; the result is the text of the error,
`none` for `nil`. -/
def Matrix.isValid (uni : GoString → GoString) (m : Matrix) : Option GoString :=
  if m.records.length = 0 then some errMatrixEmpty
  else
    let matrixSize := m.records.length
    isValidRows uni matrixSize m.records

/-- The assignment `rds[j][i] = v`; `none` is the index-out-of-range panic. -/
def setCell (rds : List (List GoString)) (j i : Nat) (v : GoString) :
    Option (List (List GoString)) :=
  match rds.get? j with
  | none => none
  | some r => if i < r.length then some (rds.set j (r.set i v)) else none

/-- The inner loop `for j, element := range row` of `invert`, from column `j`. -/
def invertElements (i : Nat) :
    List GoString → Nat → List (List GoString) → Option (List (List GoString))
  | [], _, rds => some rds
  | element :: rest, j, rds =>
    match setCell rds j i (Trim element) with
    | none => none
    | some rds1 => invertElements i rest (j + 1) rds1

/-- The loop `for i, row := range m.records` of `invert`, from row `i`. -/
def invertRows :
    List (List GoString) → Nat → List (List GoString) → Option (List (List GoString))
  | [], _, rds => some rds
  | row :: rest, i, rds =>
    match invertElements i row 0 rds with
    | none => none
    | some rds1 => invertRows rest (i + 1) rds1

/-- The grid `rds` that `invert` has built when its second loop ends. -/
def Matrix.invertRds (m : Matrix) : Option (List (List GoString)) :=
  let matrixSize := m.records.length
  invertRows m.records 0 (List.replicate matrixSize (List.replicate matrixSize []))

/-- The loop `result = fmt.Sprintf("%s%s\n", result, strings.Join(row, ","))` that
`invert` and the `/echo` handler run over a grid. -/
def renderRows (rows : List (List GoString)) : GoString :=
  rows.foldl (fun result row => result ++ Join row (str ",") ++ str "\n") []

/-- The method `(m *Matrix) invert() string`. -/
def Matrix.invert (m : Matrix) : Option GoString :=
  match m.invertRds with
  | none => none
  | some rds => some (renderRows rds)

/-- The method `(m *Matrix) flatten() string`; `none` is the panic of the slice
expression `result[:len(result)-1]` when `result` is empty. -/
def Matrix.flatten (m : Matrix) : Option GoString :=
  let result := m.records.foldl (fun result row => result ++ Join row (str ",") ++ str ",") []
  if result.length = 0 then none
  else some (result.take (result.length - 1) ++ str "\n")

/-- The accumulator `result` of `sum` when its loops end. -/
def Matrix.sumBig (m : Matrix) : Int :=
  m.records.foldl
    (fun result row => row.foldl (fun result num => result + (ParseInt (Trim num) 64).1) result) 0

/-- The method `(m *Matrix) sum() string`. -/
def Matrix.sum (m : Matrix) : GoString :=
  bigString m.sumBig ++ str "\n"

/-- The loops of `multiply`: the state is the accumulator `result` and the text
written to standard output by `fmt.Print(err.Error())`. -/
def Matrix.multiplyLoop (uni : GoString → GoString) (m : Matrix) : Int × GoString :=
  m.records.foldl
    (fun st row => row.foldl
      (fun st num =>
        match ParseInt (Trim num) 64 with
        | (n, some err) => (st.1 * n, st.2 ++ err.Error uni)
        | (n, none) => (st.1 * n, st.2))
      st)
    (1, [])

/-- The method `(m *Matrix) multiply() string`. -/
def Matrix.multiply (uni : GoString → GoString) (m : Matrix) : GoString :=
  bigString (m.multiplyLoop uni).1 ++ str "\n"

/-- The five routes that `main` registers. -/
inductive Route where
  | echo
  | invert
  | flatten
  | sum
  | multiply
  deriving DecidableEq, Repr

/-- The body that the handler of a route writes once the CSV reader has returned
`records`: the text of the validation error, or else the rendering of the route.
`none` is a panic of the method called. -/
def handle (uni : GoString → GoString) (route : Route) (records : List (List GoString)) :
    Option GoString :=
  let m : Matrix := ⟨records⟩
  match m.isValid uni with
  | some err => some err
  | none =>
    match route with
    | .echo => some (renderRows records)
    | .invert => m.invert
    | .flatten => m.flatten
    | .sum => some m.sum
    | .multiply => some (m.multiply uni)

/-! ## Notions used to state the properties -/

/-- The error, if any, of `strconv.Atoi` on the cell with its surrounding spaces
removed. -/
def cellError (cell : GoString) : Option NumError := (Atoi (Trim cell)).2

/-- The cell, with its surrounding spaces removed, is accepted by `strconv.Atoi`. -/
def parses (cell : GoString) : Bool := (cellError cell).isNone

/-- A row that stops the scan of a grid with `n` rows: its length is not `n`, or one
of its cells does not parse. -/
def failingRow (n : Nat) (row : List GoString) : Bool :=
  row.length != n || row.any (fun cell => !parses cell)

/-- The first failure of a row-major scan, as the specification words it: `Empty`
for a grid without rows; otherwise, at the first failing row, `NotSquare` when the
row has the wrong length and else the invalid-number error of its leftmost cell
that does not parse; success when no row fails. -/
def firstFailure (uni : GoString → GoString) (m : Matrix) : Option GoString :=
  if m.records.length = 0 then some errMatrixEmpty
  else
    match m.records.find? (failingRow m.records.length) with
    | none => none
    | some row =>
      if row.length ≠ m.records.length then some errMatrixNotSquare
      else (row.find? (fun cell => !parses cell)).bind
        (fun cell => (cellError cell).map (errMsg uni))

/-- The byte is one of the ASCII digits `0` to `9`. -/
def isDigit (c : Byte) : Bool := 48 ≤ c.val && c.val ≤ 57

/-- The number written by the digits `ds` after the digits already read as `n`. -/
def digitsValueFrom (n : Nat) (ds : List Byte) : Nat :=
  ds.foldl (fun n c => n * 10 + (c.val - 48)) n

/-- A base-10 signed integer literal: an optional sign `+` or `-`, then one or more
digits. -/
def isIntLiteral (s : GoString) : Bool :=
  match s with
  | [] => false
  | c :: rest =>
    if c == 43 || c == 45 then !rest.isEmpty && rest.all isDigit else s.all isDigit

/-- The integer that a literal writes. -/
def literalValue (s : GoString) : Int :=
  match s with
  | [] => 0
  | c :: rest =>
    if c == 45 then -(digitsValueFrom 0 rest : Int)
    else if c == 43 then (digitsValueFrom 0 rest : Int)
    else (digitsValueFrom 0 s : Int)

/-- The value is one of a 64-bit `int`. -/
def inIntRange (v : Int) : Prop := -2 ^ 63 ≤ v ∧ v ≤ 2 ^ 63 - 1

instance (v : Int) : Decidable (inIntRange v) := by
  unfold inIntRange
  infer_instance

/-- A value for the parameter `uni` of `Quote` in examples whose strings are ASCII;
`Quote` does not consult it there. -/
def uniUnused : GoString → GoString := fun _ => []

/-- The cell in row `i` and column `j` of a grid; the empty string outside the
grid. -/
def cellAt (rows : List (List GoString)) (i j : Nat) : GoString :=
  (rows.getD i []).getD j []

/-- The transposed grid as the specification describes it: row `j`, column `i` holds
the trimmed cell of row `i`, column `j` of the input. -/
def transposeTrim (rows : List (List GoString)) : List (List GoString) :=
  (List.range rows.length).map
    (fun j => (List.range rows.length).map (fun i => Trim (cellAt rows i j)))

/-- The grid has `n` rows of `n` cells. -/
def isSquare (n : Nat) (g : List (List GoString)) : Prop :=
  g.length = n ∧ ∀ r ∈ g, r.length = n

/-- A text split back into a grid: its newline-terminated lines, each split on
commas. -/
def textGrid (text : GoString) : List (List GoString) :=
  ((text.splitOn 10).dropLast).map (fun line => line.splitOn 44)

/-- The example grid of the specification, rows `1,2` and `3,4`. -/
def exampleGrid : Matrix := ⟨[[str "1", str "2"], [str "3", str "4"]]⟩

/-- A valid grid whose cells carry surrounding spaces. -/
def spacedGrid : Matrix := ⟨[[str " 1", str "2 "], [str " 3 ", str "-4"]]⟩

/-- The grid whose four cells are the largest 64-bit `int`. -/
def maxIntGrid : Matrix :=
  ⟨[[str "9223372036854775807", str "9223372036854775807"],
    [str "9223372036854775807", str "9223372036854775807"]]⟩

/-- A grid that `isValid` rejects: one cell is a literal above the range of `int64`. -/
def unvalidatedGrid : Matrix :=
  ⟨[[str "2", str "99999999999999999999"], [str "3", str "4"]]⟩

/-- The inner loop `for j, element := range row` of `invert`, run on the grid `rds`
together with the list `log` of the index pairs `(j, i)` of the assignments
`rds[j][i] = ...` executed so far: a pair is appended when `setCell` has made the
assignment, and the panic of an assignment ends the run. -/
def invertElementsTraced (i : Nat) :
    List GoString → Nat → List (List GoString) → List (Nat × Nat) →
      Option (List (List GoString) × List (Nat × Nat))
  | [], _, rds, log => some (rds, log)
  | element :: rest, j, rds, log =>
    match setCell rds j i (Trim element) with
    | none => none
    | some rds1 => invertElementsTraced i rest (j + 1) rds1 (log ++ [(j, i)])

/-- The loop `for i, row := range m.records` of `invert`, run on the grid `rds`
together with the list of the assignments executed so far. -/
def invertRowsTraced :
    List (List GoString) → Nat → List (List GoString) → List (Nat × Nat) →
      Option (List (List GoString) × List (Nat × Nat))
  | [], _, rds, log => some (rds, log)
  | row :: rest, i, rds, log =>
    match invertElementsTraced i row 0 rds log with
    | none => none
    | some (rds1, log1) => invertRowsTraced rest (i + 1) rds1 log1

/-- The run of the loops of `invert` on the grid: the grid `rds` they build and the
index pairs `(j, i)` of the assignments `rds[j][i] = ...` they executed, in order;
`none` when an assignment panics. -/
def Matrix.invertTraced (m : Matrix) : Option (List (List GoString) × List (Nat × Nat)) :=
  let matrixSize := m.records.length
  invertRowsTraced m.records 0 (List.replicate matrixSize (List.replicate matrixSize [])) []

/-- The grid with every cell trimmed. -/
def Matrix.trimmed (m : Matrix) : Matrix :=
  ⟨m.records.map (fun row => row.map Trim)⟩

/-- Two grids differ at most by leading and trailing spaces of their cells: they
have the same rows of trimmed cells. -/
def sameUpToSpaces (g g1 : Matrix) : Prop := g.trimmed = g1.trimmed

instance (g g1 : Matrix) : Decidable (sameUpToSpaces g g1) := by
  unfold sameUpToSpaces
  infer_instance

/-! ## Validation -/

theorem isValidElements_eq (uni : GoString → GoString) (row : List GoString) :
    isValidElements uni row =
      (row.find? (fun cell => !parses cell)).bind
        (fun cell => (cellError cell).map (errMsg uni)) := by
  induction row with
  | nil => rfl
  | cons element rest ih =>
    unfold isValidElements
    cases h : (Atoi (Trim element)).2 with
    | none => simp [List.find?_cons, parses, cellError, h, ih]
    | some err => simp [List.find?_cons, parses, cellError, h]

theorem isValidElements_eq_none (uni : GoString → GoString) (row : List GoString) :
    isValidElements uni row = none ↔ ∀ cell ∈ row, parses cell = true := by
  induction row with
  | nil => simp [isValidElements]
  | cons element rest ih =>
    unfold isValidElements
    cases h : (Atoi (Trim element)).2 with
    | none => simp [parses, cellError, h, ih]
    | some err => simp [parses, cellError, h]

theorem failingRow_eq_false (uni : GoString → GoString) (n : Nat) (row : List GoString) :
    failingRow n row = false ↔ row.length = n ∧ isValidElements uni row = none := by
  rw [isValidElements_eq_none]
  simp [failingRow]

theorem isValidRows_eq (uni : GoString → GoString) (n : Nat) (rows : List (List GoString)) :
    isValidRows uni n rows =
      match rows.find? (failingRow n) with
      | none => none
      | some row =>
        if row.length ≠ n then some errMatrixNotSquare
        else (row.find? (fun cell => !parses cell)).bind
          (fun cell => (cellError cell).map (errMsg uni)) := by
  induction rows with
  | nil => rfl
  | cons row rest ih =>
    unfold isValidRows
    by_cases hlen : row.length = n
    · cases hrow : isValidElements uni row with
      | none =>
        have hf : failingRow n row = false := (failingRow_eq_false uni n row).2 ⟨hlen, hrow⟩
        simp [hlen, List.find?_cons, hf, ih]
      | some e =>
        have hf : failingRow n row = true := by
          cases hb : failingRow n row with
          | true => rfl
          | false => rw [((failingRow_eq_false uni n row).1 hb).2] at hrow; cases hrow
        simp [hlen, List.find?_cons, hf, ← isValidElements_eq, hrow]
    · have hf : failingRow n row = true := by simp [failingRow, hlen]
      simp [hlen, List.find?_cons, hf]

theorem isValidRows_eq_none (uni : GoString → GoString) (n : Nat)
    (rows : List (List GoString)) :
    isValidRows uni n rows = none ↔
      ∀ row ∈ rows, row.length = n ∧ ∀ cell ∈ row, parses cell = true := by
  induction rows with
  | nil => simp [isValidRows]
  | cons row rest ih =>
    unfold isValidRows
    by_cases hlen : row.length = n
    · cases hrow : isValidElements uni row with
      | none =>
        have hall := (isValidElements_eq_none uni row).1 hrow
        simp only [hlen, ne_eq, not_true_eq_false, if_false, List.mem_cons, forall_eq_or_imp, ih]
        exact ⟨fun h => ⟨⟨trivial, hall⟩, h⟩, fun h => h.2⟩
      | some e =>
        have hno : ¬ ∀ cell ∈ row, parses cell = true := by
          intro h
          rw [(isValidElements_eq_none uni row).2 h] at hrow
          cases hrow
        simp only [hlen, ne_eq, not_true_eq_false, if_false, List.mem_cons, forall_eq_or_imp,
          reduceCtorEq, false_iff]
        intro h
        exact hno h.1.2
    · simp only [ne_eq, hlen, not_false_eq_true, if_true, List.mem_cons, forall_eq_or_imp,
        reduceCtorEq, false_iff]
      intro h
      exact h.1.1

theorem isValid_eq_none (uni : GoString → GoString) (m : Matrix) :
    m.isValid uni = none ↔
      m.records ≠ [] ∧
        ∀ row ∈ m.records, row.length = m.records.length ∧ ∀ cell ∈ row, parses cell = true := by
  unfold Matrix.isValid
  by_cases h : m.records.length = 0
  · simp [h, List.length_eq_zero.1 h]
  · have hne : m.records ≠ [] := fun h0 => h (by simp [h0])
    simp only [h, if_false, isValidRows_eq_none, hne, ne_eq, not_false_eq_true, true_and]

/-- C1: `isValid` returns the first failure of a row-major scan: `Empty` for a grid
without rows, otherwise at the first failing row `NotSquare` for a wrong length and
else the invalid-number error of the leftmost cell that does not parse; it succeeds
exactly when the grid has a row and no row fails. -/
theorem isValid_reports_first_failure (uni : GoString → GoString) (m : Matrix) :
    m.isValid uni = firstFailure uni m ∧
      (m.isValid uni = none ↔
        m.records ≠ [] ∧
          ∀ row ∈ m.records,
            row.length = m.records.length ∧ ∀ cell ∈ row, parses cell = true) := by
  constructor
  · unfold Matrix.isValid firstFailure
    by_cases h : m.records.length = 0
    · simp [h]
    · simp only [h, if_false, isValidRows_eq]
  · exact isValid_eq_none uni m

/-! ## The parsers of `strconv` -/

theorem le_digitsValueFrom (ds : List Byte) (n : Nat) : n ≤ digitsValueFrom n ds := by
  induction ds generalizing n with
  | nil => simp [digitsValueFrom]
  | cons c cs ih =>
    have h := ih (n * 10 + (c.val - 48))
    simp only [digitsValueFrom, List.foldl_cons] at h ⊢
    omega

theorem digitsValueFrom_lt (ds : List Byte) (n : Nat) (hd : ∀ c ∈ ds, isDigit c = true) :
    digitsValueFrom n ds < (n + 1) * 10 ^ ds.length := by
  induction ds generalizing n with
  | nil => simp [digitsValueFrom]
  | cons c cs ih =>
    have hc : isDigit c = true := hd c (List.mem_cons_self _ _)
    have h := ih (n * 10 + (c.val - 48)) (fun x hx => hd x (List.mem_cons_of_mem _ hx))
    simp only [isDigit, Bool.and_eq_true, decide_eq_true_eq] at hc
    have hle : (n * 10 + (c.val - 48) + 1) * 10 ^ cs.length ≤ (n + 1) * 10 * 10 ^ cs.length :=
      Nat.mul_le_mul_right _ (by omega)
    simp only [digitsValueFrom, List.foldl_cons, List.length_cons] at h ⊢
    calc _ < (n * 10 + (c.val - 48) + 1) * 10 ^ cs.length := h
      _ ≤ (n + 1) * 10 * 10 ^ cs.length := hle
      _ = (n + 1) * 10 ^ (cs.length + 1) := by ring

theorem atoiLoop_digits (s0 : GoString) (cs : List Byte) (n : Nat)
    (hd : ∀ c ∈ cs, isDigit c = true) (hv : digitsValueFrom n cs < 2 ^ 63) :
    atoiLoop s0 cs (n : Int) = ((digitsValueFrom n cs : Int), none) := by
  induction cs generalizing n with
  | nil => simp [atoiLoop, digitsValueFrom]
  | cons c cs ih =>
    have hc : isDigit c = true := hd c (List.mem_cons_self _ _)
    simp only [isDigit, Bool.and_eq_true, decide_eq_true_eq] at hc
    have hv1 : digitsValueFrom (n * 10 + (c.val - 48)) cs < 2 ^ 63 := by
      simpa [digitsValueFrom] using hv
    have hle := le_digitsValueFrom cs (n * 10 + (c.val - 48))
    have h := ih (n * 10 + (c.val - 48)) (fun x hx => hd x (List.mem_cons_of_mem _ hx)) hv1
    have hch : (c.val + 256 - 48) % 256 = c.val - 48 := by omega
    have hnot : ¬ (c.val - 48 > 9) := by omega
    have hwrap : ((n : Int) * 10 + ((c.val - 48 : Nat) : Int) + 2 ^ 63) % 2 ^ 64 - 2 ^ 63
        = ((n * 10 + (c.val - 48) : Nat) : Int) := by
      push_cast
      omega
    unfold atoiLoop
    simp only [hch, hnot, if_false, hwrap, h]
    simp [digitsValueFrom]

theorem atoiLoop_ok (s0 : GoString) (cs : List Byte) (n : Int)
    (h : (atoiLoop s0 cs n).2 = none) : ∀ c ∈ cs, isDigit c = true := by
  induction cs generalizing n with
  | nil => simp
  | cons c cs ih =>
    simp only [atoiLoop] at h
    split at h
    · simp at h
    · rename_i hch
      intro x hx
      rcases List.mem_cons.1 hx with rfl | hx
      · simp only [isDigit, Bool.and_eq_true, decide_eq_true_eq]
        omega
      · exact ih _ h x hx

theorem parseUintLoop_digits (s0 : GoString) (cs : List Byte) (n : Nat)
    (hd : ∀ c ∈ cs, isDigit c = true) (hv : digitsValueFrom n cs < 2 ^ 64) :
    parseUintLoop s0 (2 ^ 64 - 1) cs n = (digitsValueFrom n cs, none) := by
  induction cs generalizing n with
  | nil => simp [parseUintLoop, digitsValueFrom]
  | cons c cs ih =>
    have hc : isDigit c = true := hd c (List.mem_cons_self _ _)
    simp only [isDigit, Bool.and_eq_true, decide_eq_true_eq] at hc
    have hv1 : digitsValueFrom (n * 10 + (c.val - 48)) cs < 2 ^ 64 := by
      simpa [digitsValueFrom] using hv
    have hle := le_digitsValueFrom cs (n * 10 + (c.val - 48))
    have h := ih (n * 10 + (c.val - 48)) (fun x hx => hd x (List.mem_cons_of_mem _ hx)) hv1
    have h1 : ¬ (c.val - 48 ≥ 10) := by omega
    have h2 : ¬ (n ≥ maxUint64 / 10 + 1) := by
      simp only [maxUint64]
      omega
    have h3 : (n * 10) % 2 ^ 64 = n * 10 := by omega
    have h4 : (n * 10 + (c.val - 48)) % 2 ^ 64 = n * 10 + (c.val - 48) := by omega
    have h5 : ¬ (n * 10 + (c.val - 48) < n * 10 ∨ n * 10 + (c.val - 48) > 2 ^ 64 - 1) := by
      omega
    unfold parseUintLoop
    simp only [hc, and_self, if_true, h1, h2, if_false, h3, h4, h5, h]
    simp [digitsValueFrom]

theorem parseUintLoop_ok (s0 : GoString) (cs : List Byte) (n : Nat) (hn : n < 2 ^ 64)
    (h : (parseUintLoop s0 (2 ^ 64 - 1) cs n).2 = none) :
    (∀ c ∈ cs, isDigit c = true) ∧ digitsValueFrom n cs < 2 ^ 64 := by
  induction cs generalizing n with
  | nil => simpa [digitsValueFrom] using hn
  | cons c cs ih =>
    simp only [parseUintLoop] at h
    split at h
    · rename_i hc
      split at h
      · simp at h
      · split at h
        · simp at h
        · rename_i h2
          split at h
          · simp at h
          · rename_i h5
            simp only [maxUint64] at h2
            have h3 : (n * 10) % 2 ^ 64 = n * 10 := by omega
            rw [h3] at h h5
            have h4 : (n * 10 + (c.val - 48)) % 2 ^ 64 = n * 10 + (c.val - 48) := by omega
            rw [h4] at h
            have := ih (n * 10 + (c.val - 48)) (by omega) h
            refine ⟨?_, by simpa [digitsValueFrom] using this.2⟩
            intro x hx
            rcases List.mem_cons.1 hx with rfl | hx
            · simp only [isDigit, Bool.and_eq_true, decide_eq_true_eq]
              exact hc
            · exact this.1 x hx
    · split at h
      · split at h <;> simp at h
      · simp at h

theorem parseUintLoop_range (s0 : GoString) (cs : List Byte) (n : Nat) (e : NumError)
    (h : (parseUintLoop s0 (2 ^ 64 - 1) cs n).2 = some e) (he : e.Err = .ErrRange) :
    (parseUintLoop s0 (2 ^ 64 - 1) cs n).1 = 2 ^ 64 - 1 := by
  induction cs generalizing n with
  | nil => simp [parseUintLoop] at h
  | cons c cs ih =>
    simp only [parseUintLoop] at h ⊢
    split
    · split
      · rename_i h0 h1
        simp only [h0, h1, and_self, if_true, Option.some.injEq] at h
        subst h
        simp [syntaxError] at he
      · split
        · rfl
        · split
          · rfl
          · rename_i h0 h1 h2 h3
            simp only [h0, h1, h2, h3, and_self, if_true, if_false] at h
            exact ih _ h
    · rename_i h0
      simp only [h0, if_false] at h
      split at h <;> try split at h
      all_goals
        simp only [Option.some.injEq] at h
        subst h
        simp [syntaxError] at he

theorem ParseUint_digits (ds : List Byte) (hne : ds ≠ [])
    (hd : ∀ c ∈ ds, isDigit c = true) (hv : digitsValueFrom 0 ds < 2 ^ 64) :
    ParseUint ds 64 = (digitsValueFrom 0 ds, none) := by
  unfold ParseUint
  simp only [hne, if_false]
  exact parseUintLoop_digits ds ds 0 hd hv

theorem ParseUint_ok (ds : List Byte) (h : (ParseUint ds 64).2 = none) :
    ds ≠ [] ∧ (∀ c ∈ ds, isDigit c = true) ∧ digitsValueFrom 0 ds < 2 ^ 64 := by
  unfold ParseUint at h
  by_cases hne : ds = []
  · simp [hne] at h
  · simp only [hne, if_false] at h
    exact ⟨hne, parseUintLoop_ok ds ds 0 (by norm_num) h⟩

theorem ParseUint_range (ds : List Byte) (e : NumError)
    (h : (ParseUint ds 64).2 = some e) (he : e.Err = .ErrRange) :
    (ParseUint ds 64).1 = 2 ^ 64 - 1 := by
  unfold ParseUint at h ⊢
  by_cases hne : ds = []
  · simp only [hne, if_true, Option.some.injEq] at h
    subst h
    simp [syntaxError] at he
  · simp only [hne, if_false] at h ⊢
    exact parseUintLoop_range ds ds 0 e h he

/-- The part of `ParseInt` that follows the call of `ParseUint`. -/
theorem ParseInt_cons (c : Byte) (rest : List Byte) :
    ParseInt (c :: rest) 64 =
      match ParseUint (if c == 43 then rest else if c == 45 then rest else c :: rest) 64 with
      | (_, some ⟨_, _, .ErrSyntax⟩) => (0, some ⟨str "ParseInt", c :: rest, .ErrSyntax⟩)
      | (un, _) =>
        if !(c == 45) && un ≥ 2 ^ 63 then
          ((2 ^ 63 : Int) - 1, some (rangeError (str "ParseInt") (c :: rest)))
        else if (c == 45) && un > 2 ^ 63 then
          (-(2 ^ 63 : Int), some (rangeError (str "ParseInt") (c :: rest)))
        else
          (if c == 45 then (-(((un : Int) + 2 ^ 63) % 2 ^ 64 - 2 ^ 63) + 2 ^ 63) % 2 ^ 64 - 2 ^ 63
            else ((un : Int) + 2 ^ 63) % 2 ^ 64 - 2 ^ 63, none) := by
  simp only [ParseInt]
  split <;> simp_all

theorem ParseInt_of_ParseUint (c : Byte) (rest ds : List Byte) (v : Nat)
    (hds : (if c == 43 then rest else if c == 45 then rest else c :: rest) = ds)
    (hpu : ParseUint ds 64 = (v, none))
    (hb : if c = 45 then v ≤ 2 ^ 63 else v < 2 ^ 63) :
    ParseInt (c :: rest) 64 = (if c = 45 then -(v : Int) else (v : Int), none) := by
  rw [ParseInt_cons, hds, hpu]
  dsimp only
  by_cases hc : c = 45
  · rw [if_pos hc] at hb
    have hc2 : (c == 45) = true := by simpa using hc
    rw [hc2, if_pos hc]
    have h1 : ¬ ((!true && decide (v ≥ 2 ^ 63)) = true) := by simp
    have h2 : ¬ ((true && decide (v > 2 ^ 63)) = true) := by
      rw [Bool.true_and, decide_eq_true_eq]
      omega
    rw [if_neg h1, if_neg h2, if_pos rfl]
    refine Prod.ext ?_ rfl
    omega
  · rw [if_neg hc] at hb
    have hc2 : (c == 45) = false := by simpa using hc
    rw [hc2, if_neg hc]
    have h1 : ¬ ((!false && decide (v ≥ 2 ^ 63)) = true) := by
      rw [Bool.not_false, Bool.true_and, decide_eq_true_eq]
      omega
    have h2 : ¬ ((false && decide (v > 2 ^ 63)) = true) := by simp
    rw [if_neg h1, if_neg h2, if_neg (by simp)]
    refine Prod.ext ?_ rfl
    omega

theorem ParseInt_literal (s : GoString) (hl : isIntLiteral s = true)
    (hr : inIntRange (literalValue s)) : ParseInt s 64 = (literalValue s, none) := by
  cases s with
  | nil => simp [isIntLiteral] at hl
  | cons c rest =>
    unfold inIntRange at hr
    by_cases h45 : c = 45
    · subst h45
      simp only [isIntLiteral, literalValue, beq_self_eq_true, Bool.or_true, if_true,
        Bool.and_eq_true, Bool.not_eq_true', List.isEmpty_eq_false, List.all_eq_true] at hl hr
      have hne : rest ≠ [] := by
        intro h0
        simp [h0] at hl
      have hpu := ParseUint_digits rest hne hl.2 (by omega)
      rw [ParseInt_of_ParseUint 45 rest rest _ (by simp) hpu (by simp only [if_true]; omega)]
      simp [literalValue]
    · by_cases h43 : c = 43
      · subst h43
        simp only [isIntLiteral, literalValue, beq_self_eq_true, Bool.true_or, if_true,
          Bool.and_eq_true, Bool.not_eq_true', List.isEmpty_eq_false, List.all_eq_true] at hl hr
        have hne : rest ≠ [] := by
          intro h0
          simp [h0] at hl
        have h1 : ((43 : Byte) == 45) = false := by decide
        simp only [h1, Bool.false_eq_true, if_false] at hr
        have hpu := ParseUint_digits rest hne hl.2 (by omega)
        rw [ParseInt_of_ParseUint 43 rest rest _ (by simp) hpu
          (by simp only [show ¬ ((43 : Byte) = 45) by decide, if_false]; omega)]
        simp [literalValue, h1]
      · have h1 : (c == 45) = false := by simpa using h45
        have h2 : (c == 43) = false := by simpa using h43
        simp only [isIntLiteral, literalValue, h1, h2, Bool.or_false, Bool.false_eq_true,
          if_false, List.all_eq_true] at hl hr
        have hpu := ParseUint_digits (c :: rest) (by simp) hl (by omega)
        rw [ParseInt_of_ParseUint c rest (c :: rest) _ (by simp [h1, h2]) hpu
          (by simp only [h45, if_false]; omega)]
        simp [literalValue, h1, h2, h45]

theorem ParseInt_ok (s : GoString) (h : (ParseInt s 64).2 = none) :
    isIntLiteral s = true ∧ inIntRange (literalValue s) := by
  cases s with
  | nil => simp [ParseInt] at h
  | cons c rest =>
    rw [ParseInt_cons] at h
    generalize hds : (if c == 43 then rest else if c == 45 then rest else c :: rest) = ds at h
    rcases hpu : ParseUint ds 64 with ⟨un, oe⟩
    rw [hpu] at h
    cases oe with
    | some e =>
      rcases e with ⟨f, num, err⟩
      cases err with
      | ErrSyntax => simp at h
      | ErrRange =>
        have hmax := ParseUint_range ds ⟨f, num, .ErrRange⟩ (by rw [hpu]) rfl
        rw [hpu] at hmax
        dsimp only at hmax h
        subst hmax
        by_cases hc : c = 45
        · have hc2 : (c == 45) = true := by simpa using hc
          rw [hc2] at h
          simp at h
        · have hc2 : (c == 45) = false := by simpa using hc
          rw [hc2] at h
          simp at h
    | none =>
      have hok := ParseUint_ok ds (by rw [hpu])
      have hval := ParseUint_digits ds hok.1 hok.2.1 hok.2.2
      rw [hpu] at hval
      have hun : un = digitsValueFrom 0 ds := congrArg Prod.fst hval
      dsimp only at h
      unfold inIntRange
      by_cases h45 : c = 45
      · subst h45
        simp only [beq_self_eq_true, if_true, show ((45 : Byte) == 43) = false by decide,
          Bool.false_eq_true, if_false] at hds
        subst hds
        have hb : ¬ (un > 2 ^ 63) := by
          intro hgt
          have hgt1 : 9223372036854775808 < un := by omega
          simp [hgt1] at h
        simp only [isIntLiteral, literalValue, beq_self_eq_true, Bool.or_true, if_true,
          Bool.and_eq_true, Bool.not_eq_true', List.isEmpty_eq_false, List.all_eq_true]
        exact ⟨⟨hok.1, hok.2.1⟩, by omega⟩
      · have h1 : (c == 45) = false := by simpa using h45
        have hb : ¬ (un ≥ 2 ^ 63) := by
          intro hge
          have hge1 : 9223372036854775808 ≤ un := by omega
          simp [h1, hge1] at h
        by_cases h43 : c = 43
        · subst h43
          simp only [beq_self_eq_true, if_true] at hds
          subst hds
          simp only [isIntLiteral, literalValue, beq_self_eq_true, Bool.true_or, if_true,
            Bool.and_eq_true, Bool.not_eq_true', List.isEmpty_eq_false, List.all_eq_true, h1,
            Bool.false_eq_true, if_false]
          exact ⟨⟨hok.1, hok.2.1⟩, by omega⟩
        · have h2 : (c == 43) = false := by simpa using h43
          simp only [h1, h2, Bool.false_eq_true, if_false] at hds
          subst hds
          simp only [isIntLiteral, literalValue, h1, h2, Bool.or_false, Bool.false_eq_true,
            if_false, List.all_eq_true]
          exact ⟨hok.2.1, by omega⟩

theorem ParseInt_zero (s : GoString) : ParseInt s 0 = ParseInt s 64 := by
  cases s with
  | nil => rfl
  | cons c rest => simp [ParseInt, ParseUint, intSize]

theorem Atoi_slow (s : GoString) (h : ¬ (0 < s.length ∧ s.length < 19)) :
    Atoi s =
      match ParseInt s 64 with
      | (i64, some e) => (i64, some ⟨str "Atoi", e.Num, e.Err⟩)
      | (i64, none) => (i64, none) := by
  unfold Atoi
  simp only [intSize, h, and_false, or_false, if_false, ParseInt_zero]
  simp

theorem Atoi_fast (c : Byte) (rest : List Byte) (h : (c :: rest).length < 19) :
    Atoi (c :: rest) =
      if (c == 45 || c == 43) && (if c == 45 || c == 43 then rest else c :: rest).length < 1 then
        (0, some (syntaxError (str "Atoi") (c :: rest)))
      else
        match atoiLoop (c :: rest) (if c == 45 || c == 43 then rest else c :: rest) 0 with
        | (_, some e) => (0, some e)
        | (n, none) => (if c == 45 then (-n + 2 ^ 63) % 2 ^ 64 - 2 ^ 63 else n, none) := by
  unfold Atoi
  have h0 : 0 < (c :: rest).length := by simp
  simp only [intSize, h, h0, and_self, or_true, if_true, List.headD_cons, List.tail_cons]

theorem Atoi_literal (s : GoString) (hl : isIntLiteral s = true)
    (hr : inIntRange (literalValue s)) : Atoi s = (literalValue s, none) := by
  by_cases hfast : 0 < s.length ∧ s.length < 19
  · cases s with
    | nil => simp [isIntLiteral] at hl
    | cons c rest =>
      rw [Atoi_fast c rest hfast.2]
      have hpow : ∀ ds : List Byte, ds.length ≤ 18 → (∀ x ∈ ds, isDigit x = true) →
          digitsValueFrom 0 ds < 2 ^ 63 := by
        intro ds hlen hd
        have h1 := digitsValueFrom_lt ds 0 hd
        have h2 : 10 ^ ds.length ≤ 10 ^ 18 := Nat.pow_le_pow_right (by norm_num) hlen
        omega
      simp only [List.length_cons] at hfast
      by_cases h45 : c = 45
      · subst h45
        simp only [isIntLiteral, beq_self_eq_true, Bool.or_true, if_true,
          Bool.and_eq_true, Bool.not_eq_true', List.isEmpty_eq_false, List.all_eq_true] at hl
        have hv := hpow rest (by omega) hl.2
        have hloop := atoiLoop_digits (45 :: rest) rest 0 hl.2 hv
        rw [Nat.cast_zero] at hloop
        have hlen : ¬ (rest.length < 1) := by
          cases rest with
          | nil => exact absurd rfl hl.1
          | cons a b => simp
        simp only [beq_self_eq_true, Bool.true_or, if_true, Bool.true_and, decide_eq_true_eq,
          hlen, if_false, hloop, literalValue]
        refine Prod.ext ?_ rfl
        dsimp only
        omega
      · have h1 : (c == 45) = false := by simpa using h45
        by_cases h43 : c = 43
        · subst h43
          simp only [isIntLiteral, beq_self_eq_true, Bool.true_or, if_true,
            Bool.and_eq_true, Bool.not_eq_true', List.isEmpty_eq_false, List.all_eq_true] at hl
          have hv := hpow rest (by omega) hl.2
          have hloop := atoiLoop_digits (43 :: rest) rest 0 hl.2 hv
          rw [Nat.cast_zero] at hloop
          have hlen : ¬ (rest.length < 1) := by
            cases rest with
            | nil => exact absurd rfl hl.1
            | cons a b => simp
          simp only [beq_self_eq_true, Bool.or_true, if_true, Bool.true_and, decide_eq_true_eq,
            hlen, if_false, hloop, literalValue, h1, Bool.false_eq_true]
        · have h2 : (c == 43) = false := by simpa using h43
          simp only [isIntLiteral, h1, h2, Bool.or_false, Bool.false_eq_true,
            if_false, List.all_eq_true] at hl
          have hv := hpow (c :: rest) (by simp only [List.length_cons]; omega) hl
          have hloop := atoiLoop_digits (c :: rest) (c :: rest) 0 hl hv
          rw [Nat.cast_zero] at hloop
          simp only [h1, h2, Bool.or_false, Bool.false_and, Bool.false_eq_true, if_false, hloop,
            literalValue]
  · rw [Atoi_slow s hfast, ParseInt_literal s hl hr]

theorem atoi_match_ok (r : Int × Option NumError) (f : Int → Int)
    (h : (match r with
      | (_, some e) => ((0 : Int), some e)
      | (n, none) => (f n, none)).2 = none) : r.2 = none := by
  rcases r with ⟨n, oe⟩
  cases oe with
  | none => rfl
  | some e => simp at h

theorem Atoi_ok (s : GoString) (h : (Atoi s).2 = none) :
    isIntLiteral s = true ∧ inIntRange (literalValue s) := by
  by_cases hfast : 0 < s.length ∧ s.length < 19
  · cases s with
    | nil => simp at hfast
    | cons c rest =>
      rw [Atoi_fast c rest hfast.2] at h
      have hpow : ∀ ds : List Byte, ds.length ≤ 18 → (∀ x ∈ ds, isDigit x = true) →
          digitsValueFrom 0 ds < 2 ^ 63 := by
        intro ds hlen hd
        have h1 := digitsValueFrom_lt ds 0 hd
        have h2 : 10 ^ ds.length ≤ 10 ^ 18 := Nat.pow_le_pow_right (by norm_num) hlen
        omega
      simp only [List.length_cons] at hfast
      unfold inIntRange
      by_cases h45 : c = 45
      · subst h45
        simp only [beq_self_eq_true, Bool.true_or, if_true, Bool.true_and,
          decide_eq_true_eq] at h
        by_cases hlen : rest.length < 1
        · simp [hlen] at h
        · rw [if_neg hlen] at h
          have hd := atoiLoop_ok _ _ _ (atoi_match_ok _ _ h)
          have hv := hpow rest (by omega) hd
          simp only [isIntLiteral, literalValue, beq_self_eq_true, Bool.or_true, if_true,
            Bool.and_eq_true, Bool.not_eq_true', List.isEmpty_eq_false, List.all_eq_true]
          refine ⟨⟨?_, hd⟩, by omega⟩
          intro h0
          simp [h0] at hlen
      · have h1 : (c == 45) = false := by simpa using h45
        by_cases h43 : c = 43
        · subst h43
          simp only [beq_self_eq_true, Bool.or_true, if_true, Bool.true_and,
            decide_eq_true_eq] at h
          by_cases hlen : rest.length < 1
          · simp [hlen] at h
          · rw [if_neg hlen] at h
            have hd := atoiLoop_ok _ _ _ (atoi_match_ok _ _ h)
            have hv := hpow rest (by omega) hd
            simp only [isIntLiteral, literalValue, beq_self_eq_true, Bool.true_or, if_true,
              Bool.and_eq_true, Bool.not_eq_true', List.isEmpty_eq_false, List.all_eq_true, h1,
              Bool.false_eq_true, if_false]
            refine ⟨⟨?_, hd⟩, by omega⟩
            intro h0
            simp [h0] at hlen
        · have h2 : (c == 43) = false := by simpa using h43
          simp only [h1, h2, Bool.or_false, Bool.false_and, Bool.false_eq_true, if_false] at h
          have hd := atoiLoop_ok _ _ _ (atoi_match_ok _ _ h)
          have hv := hpow (c :: rest) (by simp only [List.length_cons]; omega) hd
          simp only [isIntLiteral, literalValue, h1, h2, Bool.or_false, Bool.false_eq_true,
            if_false, List.all_eq_true]
          exact ⟨hd, by omega⟩
  · rw [Atoi_slow s hfast] at h
    apply ParseInt_ok
    split at h
    · simp at h
    · rename_i heq
      rw [heq]

/-- A cell parses exactly when, trimmed, it is an integer literal whose value is one
of a 64-bit `int`. -/
theorem parses_iff (cell : GoString) :
    parses cell = true ↔
      isIntLiteral (Trim cell) = true ∧ inIntRange (literalValue (Trim cell)) := by
  unfold parses cellError
  rw [Option.isNone_iff_eq_none]
  constructor
  · exact Atoi_ok _
  · intro h
    rw [Atoi_literal _ h.1 h.2]

/-- For a cell that parses, `ParseInt` returns the integer that the cell writes. -/
theorem ParseInt_of_parses (cell : GoString) (h : parses cell = true) :
    ParseInt (Trim cell) 64 = (literalValue (Trim cell), none) := by
  have h1 := (parses_iff cell).1 h
  exact ParseInt_literal _ h1.1 h1.2

/-! ## Which grids are accepted -/

/-- C2, as stated, fails: the one-cell grid `9223372036854775808` is non-empty and
square and its cell is an integer literal, and `isValid` rejects it with a range
error. -/
theorem isValid_rejects_literal_above_int :
    (Matrix.mk [[str "9223372036854775808"]]).records ≠ [] ∧
      (∀ row ∈ (Matrix.mk [[str "9223372036854775808"]]).records,
        row.length = (Matrix.mk [[str "9223372036854775808"]]).records.length ∧
          ∀ cell ∈ row, isIntLiteral (Trim cell) = true) ∧
      (Matrix.mk [[str "9223372036854775808"]]).isValid uniUnused =
        some (str ("invalid input: matrix has invalid number format\n\tCaused by: " ++
          "strconv.Atoi: parsing \"9223372036854775808\": value out of range\n")) := by
  decide

/-- C2, amended: a non-empty square grid whose cells, trimmed, are all integer
literals with a value in the range of a 64-bit `int` passes `isValid`. -/
theorem isValid_accepts_int_literals (uni : GoString → GoString) (m : Matrix)
    (hne : m.records ≠ [])
    (hsq : ∀ row ∈ m.records, row.length = m.records.length)
    (hlit : ∀ row ∈ m.records, ∀ cell ∈ row,
      isIntLiteral (Trim cell) = true ∧ inIntRange (literalValue (Trim cell))) :
    m.isValid uni = none := by
  rw [isValid_eq_none]
  exact ⟨hne, fun row hrow => ⟨hsq row hrow, fun cell hcell =>
    (parses_iff cell).2 (hlit row hrow cell hcell)⟩⟩

theorem isValid_accepts_int_literals_witness :
    (Matrix.mk [[str " 1", str "-2 "], [str "+3", str "9223372036854775807"]]).isValid uniUnused
      = none :=
  isValid_accepts_int_literals uniUnused
    (Matrix.mk [[str " 1", str "-2 "], [str "+3", str "9223372036854775807"]])
    (by decide) (by decide) (by decide)

theorem cellError_of_not_parses (cell : GoString) (h : (!parses cell) = true) :
    ∃ err, cellError cell = some err := by
  unfold parses at h
  cases hc : cellError cell with
  | none => simp [hc] at h
  | some err => exact ⟨err, rfl⟩

/-- The scan of the rows `pre ++ rest`, when the rows of `pre` have the right length:
the first cell of `pre` that does not parse ends it, otherwise it goes on with
`rest`. -/
theorem isValidRows_append (uni : GoString → GoString) (n : Nat)
    (pre rest : List (List GoString)) (hlen : ∀ row ∈ pre, row.length = n) :
    isValidRows uni n (pre ++ rest) =
      match pre.flatten.find? (fun cell => !parses cell) with
      | some cell => (cellError cell).map (errMsg uni)
      | none => isValidRows uni n rest := by
  induction pre with
  | nil => simp
  | cons row pre ih =>
    have hrow : row.length = n := hlen row (List.mem_cons_self _ _)
    have ih1 := ih (fun r hr => hlen r (List.mem_cons_of_mem _ hr))
    rw [List.cons_append, isValidRows, isValidElements_eq, List.flatten_cons, List.find?_append]
    simp only [hrow, ne_eq, not_true_eq_false, if_false]
    cases hf : row.find? (fun cell => !parses cell) with
    | none => simpa using ih1
    | some cell =>
      have hp := List.find?_some hf
      obtain ⟨err, herr⟩ := cellError_of_not_parses cell hp
      simp [herr]

theorem atoiLoop_err (s0 : GoString) (cs : List Byte) (n : Int) (e : NumError)
    (h : (atoiLoop s0 cs n).2 = some e) : e = syntaxError (str "Atoi") s0 := by
  induction cs generalizing n with
  | nil => simp [atoiLoop] at h
  | cons c cs ih =>
    simp only [atoiLoop] at h
    split at h
    · simpa using h.symm
    · exact ih _ h

theorem ParseInt_err (s : GoString) (e : NumError) (h : (ParseInt s 64).2 = some e) :
    e.Num = s := by
  cases s with
  | nil =>
    simp only [ParseInt, Option.some.injEq] at h
    subst h
    rfl
  | cons c rest =>
    rw [ParseInt_cons] at h
    split at h
    · simp only [Option.some.injEq] at h
      subst h
      rfl
    · split at h
      · simp only [Option.some.injEq] at h
        subst h
        rfl
      · split at h
        · simp only [Option.some.injEq] at h
          subst h
          rfl
        · simp at h

theorem atoi_match_err (r : Int × Option NumError) (f : Int → Int) (e : NumError)
    (h : (match r with
      | (_, some e) => ((0 : Int), some e)
      | (n, none) => (f n, none)).2 = some e) : r.2 = some e := by
  rcases r with ⟨n, oe⟩
  cases oe with
  | none => simp at h
  | some e1 => simpa using h

theorem Atoi_err (s : GoString) (e : NumError) (h : (Atoi s).2 = some e) :
    e.Func = str "Atoi" ∧ e.Num = s := by
  by_cases hfast : 0 < s.length ∧ s.length < 19
  · cases s with
    | nil => simp at hfast
    | cons c rest =>
      rw [Atoi_fast c rest hfast.2] at h
      by_cases hsign : ((c == 45 || c == 43) &&
          decide ((if c == 45 || c == 43 then rest else c :: rest).length < 1)) = true
      · rw [if_pos hsign] at h
        simp only [Option.some.injEq] at h
        subst h
        exact ⟨rfl, rfl⟩
      · rw [if_neg hsign] at h
        have hloop := atoiLoop_err _ _ _ e (atoi_match_err _ _ e h)
        subst hloop
        exact ⟨rfl, rfl⟩
  · rw [Atoi_slow s hfast] at h
    split at h
    · rename_i i e1 hp
      simp only [Option.some.injEq] at h
      subst h
      exact ⟨rfl, ParseInt_err s e1 (by rw [hp])⟩
    · simp at h

theorem isValidRows_wrong_length (uni : GoString → GoString) (n : Nat)
    (rows : List (List GoString)) (h : ∃ row ∈ rows, row.length ≠ n) :
    isValidRows uni n rows =
      match (rows.takeWhile (fun row => row.length == n)).flatten.find?
          (fun cell => !parses cell) with
      | some cell => (cellError cell).map (errMsg uni)
      | none => some errMatrixNotSquare := by
  induction rows with
  | nil => simp at h
  | cons row rest ih =>
    by_cases hrow : row.length = n
    · have hrest : ∃ r ∈ rest, r.length ≠ n := by
        obtain ⟨r, hr, hne⟩ := h
        rcases List.mem_cons.1 hr with rfl | hr
        · exact absurd hrow hne
        · exact ⟨r, hr, hne⟩
      have hp : (row.length == n) = true := by simpa using hrow
      rw [List.takeWhile_cons, hp, if_pos rfl, List.flatten_cons, List.find?_append, isValidRows,
        isValidElements_eq]
      simp only [hrow, ne_eq, not_true_eq_false, if_false]
      cases hf : row.find? (fun cell => !parses cell) with
      | none => simpa using ih hrest
      | some cell =>
        have hc := List.find?_some hf
        obtain ⟨err, herr⟩ := cellError_of_not_parses cell hc
        simp [herr]
    · have hp : (row.length == n) = false := by simpa using hrow
      rw [List.takeWhile_cons, hp, if_neg (by simp), isValidRows]
      simp [hrow]

/-- C3, as stated, fails: in the grid with rows `[x,1]` and `[1]` the second row has
a length other than the row count, and `isValid` answers with the invalid-number
error of the cell `x` of the first row, not with `NotSquare`. -/
theorem isValid_number_error_before_not_square :
    (∃ row ∈ (Matrix.mk [[str "x", str "1"], [str "1"]]).records,
        row.length ≠ (Matrix.mk [[str "x", str "1"], [str "1"]]).records.length) ∧
      (Matrix.mk [[str "x", str "1"], [str "1"]]).isValid uniUnused =
        some (str ("invalid input: matrix has invalid number format\n\tCaused by: " ++
          "strconv.Atoi: parsing \"x\": invalid syntax\n")) ∧
      (Matrix.mk [[str "x", str "1"], [str "1"]]).isValid uniUnused ≠ some errMatrixNotSquare := by
  decide

/-- C3, amended: a grid with a row whose length differs from the number of rows
fails `isValid`; the error is `NotSquare` when every cell of the rows above the
first such row parses, and otherwise the invalid-number error of the first cell of
those rows, in row-major order, that does not parse. -/
theorem isValid_not_square (uni : GoString → GoString) (m : Matrix)
    (h : ∃ row ∈ m.records, row.length ≠ m.records.length) :
    m.isValid uni ≠ none ∧
      m.isValid uni =
        match (m.records.takeWhile (fun row => row.length == m.records.length)).flatten.find?
            (fun cell => !parses cell) with
        | some cell => (cellError cell).map (errMsg uni)
        | none => some errMatrixNotSquare := by
  have hne : ¬ m.records.length = 0 := by
    obtain ⟨r, hr, _⟩ := h
    intro h0
    rw [List.length_eq_zero.1 h0] at hr
    simp at hr
  have heq : m.isValid uni = isValidRows uni m.records.length m.records := by
    unfold Matrix.isValid
    simp only [hne, if_false]
  refine ⟨?_, ?_⟩
  · intro h0
    rw [isValid_eq_none] at h0
    obtain ⟨r, hr, hlen⟩ := h
    exact hlen (h0.2 r hr).1
  · rw [heq]
    exact isValidRows_wrong_length uni _ _ h

theorem isValid_not_square_witness :
    (Matrix.mk [[str "1", str "2", str "3"], [str "4", str "5"]]).isValid uniUnused =
      some (str "invalid input: matrix is not square\n") :=
  (isValid_not_square uniUnused (Matrix.mk [[str "1", str "2", str "3"], [str "4", str "5"]])
    (by decide)).2.trans (by decide)

/-- C4: for a non-empty square grid with a cell that does not parse, `isValid`
fails with the invalid-number-format message, then the text `\tCaused by: `, then
the detail of `strconv.Atoi` for the first such cell in row-major order, which
quotes the trimmed cell, then a newline. -/
theorem isValid_invalid_number (uni : GoString → GoString) (m : Matrix)
    (hne : m.records ≠ [])
    (hsq : ∀ row ∈ m.records, row.length = m.records.length)
    (hbad : ∃ row ∈ m.records, ∃ cell ∈ row, parses cell = false) :
    ∃ cell reason,
      m.records.flatten.find? (fun cell => !parses cell) = some cell ∧
      (reason = ConvErr.ErrSyntax ∨ reason = ConvErr.ErrRange) ∧
      m.isValid uni =
        some (str "invalid input: matrix has invalid number format\n" ++ str "\tCaused by: " ++
          (str "strconv.Atoi: parsing " ++ Quote uni (Trim cell) ++ str ": " ++ reason.Error) ++
          str "\n") := by
  have hlen : ¬ m.records.length = 0 := fun h0 => hne (List.length_eq_zero.1 h0)
  have heq : m.isValid uni = isValidRows uni m.records.length m.records := by
    unfold Matrix.isValid
    simp only [hlen, if_false]
  have happ := isValidRows_append uni m.records.length m.records [] hsq
  rw [List.append_nil] at happ
  cases hf : m.records.flatten.find? (fun cell => !parses cell) with
  | none =>
    rw [List.find?_eq_none] at hf
    obtain ⟨row, hrow, cell, hcell, hp⟩ := hbad
    have := hf cell (List.mem_flatten.2 ⟨row, hrow, hcell⟩)
    simp [hp] at this
  | some cell =>
    have hc := List.find?_some hf
    obtain ⟨err, herr⟩ := cellError_of_not_parses cell hc
    obtain ⟨hfunc, hnum⟩ := Atoi_err (Trim cell) err herr
    refine ⟨cell, err.Err, rfl, ?_, ?_⟩
    · cases err.Err
      · exact Or.inl rfl
      · exact Or.inr rfl
    · rw [heq, happ, hf]
      simp only [herr, Option.map_some', errMsg, NumError.Error, hfunc, hnum,
        errMatrixInvalidNumber]
      simp [str, List.append_assoc]

theorem isValid_invalid_number_witness :
    (∃ cell reason,
      [[str "1", str "x"], [str "2", str "3"]].flatten.find? (fun cell => !parses cell)
        = some cell ∧
      (reason = ConvErr.ErrSyntax ∨ reason = ConvErr.ErrRange) ∧
      (Matrix.mk [[str "1", str "x"], [str "2", str "3"]]).isValid uniUnused =
        some (str "invalid input: matrix has invalid number format\n" ++ str "\tCaused by: " ++
          (str "strconv.Atoi: parsing " ++ Quote uniUnused (Trim cell) ++ str ": " ++
            reason.Error) ++ str "\n")) ∧
      (Matrix.mk [[str "1", str "x"], [str "2", str "3"]]).isValid uniUnused =
        some (str ("invalid input: matrix has invalid number format\n\tCaused by: " ++
          "strconv.Atoi: parsing \"x\": invalid syntax\n")) :=
  ⟨isValid_invalid_number uniUnused (Matrix.mk [[str "1", str "x"], [str "2", str "3"]])
    (by decide) (by decide) (by decide), by decide⟩

/-! ## Transposition -/

theorem setCell_spec (n : Nat) (rds : List (List GoString)) (j i : Nat) (v : GoString)
    (hd : isSquare n rds) (hj : j < n) (hi : i < n) :
    ∃ rds1, setCell rds j i v = some rds1 ∧ isSquare n rds1 ∧
      ∀ a b, cellAt rds1 a b = if a = j ∧ b = i then v else cellAt rds a b := by
  have hjl : j < rds.length := by rw [hd.1]; exact hj
  have hr : (rds[j]).length = n := hd.2 _ (List.getElem_mem hjl)
  refine ⟨rds.set j ((rds[j]).set i v), ?_, ?_, ?_⟩
  · simp [setCell, List.getElem?_eq_getElem hjl, hr, hi]
  · refine ⟨by rw [List.length_set]; exact hd.1, ?_⟩
    intro r hmem
    rcases List.mem_or_eq_of_mem_set hmem with h | h
    · exact hd.2 r h
    · rw [h, List.length_set]; exact hr
  · intro a b
    by_cases ha : a = j
    · subst ha
      by_cases hb : b = i
      · subst hb
        simp [cellAt, List.getElem?_set, hjl, hr, hi]
      · have hb1 : ¬ i = b := fun h => hb h.symm
        simp [cellAt, List.getElem?_set, hjl, hb, hb1, List.getElem?_eq_getElem hjl]
    · have ha1 : ¬ j = a := fun h => ha h.symm
      simp [cellAt, List.getElem?_set, ha, ha1]

theorem invertElements_spec (n i : Nat) (hi : i < n) (row : List GoString) :
    ∀ (j : Nat) (rds : List (List GoString)), isSquare n rds → j + row.length ≤ n →
      ∃ rds1, invertElements i row j rds = some rds1 ∧ isSquare n rds1 ∧
        ∀ a b, cellAt rds1 a b =
          if b = i ∧ j ≤ a ∧ a < j + row.length then Trim (row.getD (a - j) [])
          else cellAt rds a b := by
  induction row with
  | nil =>
    intro j rds hd _
    refine ⟨rds, rfl, hd, ?_⟩
    intro a b
    have : ¬ (b = i ∧ j ≤ a ∧ a < j + ([] : List GoString).length) := by
      simp only [List.length_nil]
      omega
    rw [if_neg this]
  | cons element rest ih =>
    intro j rds hd hlen
    simp only [List.length_cons] at hlen
    obtain ⟨rds1, hset, hd1, hcell1⟩ := setCell_spec n rds j i (Trim element) hd (by omega) hi
    obtain ⟨rds2, hrec, hd2, hcell2⟩ := ih (j + 1) rds1 hd1 (by omega)
    refine ⟨rds2, ?_, hd2, ?_⟩
    · simp only [invertElements, hset, hrec]
    · intro a b
      rw [hcell2 a b, hcell1 a b]
      by_cases hb : b = i
      · by_cases haj : a = j
        · subst haj
          have h1 : ¬ (b = i ∧ a + 1 ≤ a ∧ a < a + 1 + rest.length) := by omega
          have h2 : b = i ∧ a ≤ a ∧ a < a + (element :: rest).length := by
            simp only [List.length_cons]
            omega
          rw [if_neg h1, if_pos ⟨rfl, hb⟩, if_pos h2]
          simp
        · by_cases hin : j + 1 ≤ a ∧ a < j + 1 + rest.length
          · have h2 : b = i ∧ j ≤ a ∧ a < j + (element :: rest).length := by
              simp only [List.length_cons]
              omega
            rw [if_pos ⟨hb, hin⟩, if_pos h2]
            have : a - j = (a - (j + 1)) + 1 := by omega
            rw [this]
            simp
          · have h1 : ¬ (b = i ∧ j + 1 ≤ a ∧ a < j + 1 + rest.length) := fun h => hin h.2
            have h2 : ¬ (b = i ∧ j ≤ a ∧ a < j + (element :: rest).length) := by
              simp only [List.length_cons]
              omega
            have h3 : ¬ (a = j ∧ b = i) := fun h => haj h.1
            rw [if_neg h1, if_neg h3, if_neg h2]
      · have h1 : ¬ (b = i ∧ j + 1 ≤ a ∧ a < j + 1 + rest.length) := fun h => hb h.1
        have h2 : ¬ (b = i ∧ j ≤ a ∧ a < j + (element :: rest).length) := fun h => hb h.1
        have h3 : ¬ (a = j ∧ b = i) := fun h => hb h.2
        rw [if_neg h1, if_neg h3, if_neg h2]

theorem invertRows_spec (n : Nat) (rows : List (List GoString)) :
    ∀ (i : Nat) (rds : List (List GoString)), isSquare n rds → i + rows.length ≤ n →
      (∀ row ∈ rows, row.length = n) →
      ∃ rds1, invertRows rows i rds = some rds1 ∧ isSquare n rds1 ∧
        ∀ a b, cellAt rds1 a b =
          if i ≤ b ∧ b < i + rows.length ∧ a < n then Trim (cellAt rows (b - i) a)
          else cellAt rds a b := by
  induction rows with
  | nil =>
    intro i rds hd _ _
    refine ⟨rds, rfl, hd, ?_⟩
    intro a b
    have : ¬ (i ≤ b ∧ b < i + ([] : List (List GoString)).length ∧ a < n) := by
      simp only [List.length_nil]
      omega
    rw [if_neg this]
  | cons row rest ih =>
    intro i rds hd hlen hrows
    simp only [List.length_cons] at hlen
    have hrow : row.length = n := hrows row (List.mem_cons_self _ _)
    obtain ⟨rds1, hel, hd1, hcell1⟩ :=
      invertElements_spec n i (by omega) row 0 rds hd (by omega)
    obtain ⟨rds2, hrec, hd2, hcell2⟩ :=
      ih (i + 1) rds1 hd1 (by omega) (fun r hr => hrows r (List.mem_cons_of_mem _ hr))
    refine ⟨rds2, ?_, hd2, ?_⟩
    · simp only [invertRows, hel, hrec]
    · intro a b
      rw [hcell2 a b, hcell1 a b]
      by_cases ha : a < n
      · by_cases hbi : b = i
        · subst hbi
          have h1 : ¬ (b + 1 ≤ b ∧ b < b + 1 + rest.length ∧ a < n) := by omega
          have h2 : b = b ∧ 0 ≤ a ∧ a < 0 + row.length := by omega
          have h3 : b ≤ b ∧ b < b + (row :: rest).length ∧ a < n := by
            simp only [List.length_cons]
            omega
          rw [if_neg h1, if_pos h2, if_pos h3]
          simp [cellAt]
        · by_cases hin : i + 1 ≤ b ∧ b < i + 1 + rest.length
          · have h3 : i ≤ b ∧ b < i + (row :: rest).length ∧ a < n := by
              simp only [List.length_cons]
              omega
            rw [if_pos ⟨hin.1, hin.2, ha⟩, if_pos h3]
            have : b - i = (b - (i + 1)) + 1 := by omega
            rw [this]
            simp [cellAt]
          · have h1 : ¬ (i + 1 ≤ b ∧ b < i + 1 + rest.length ∧ a < n) :=
              fun h => hin ⟨h.1, h.2.1⟩
            have h2 : ¬ (b = i ∧ 0 ≤ a ∧ a < 0 + row.length) := fun h => hbi h.1
            have h3 : ¬ (i ≤ b ∧ b < i + (row :: rest).length ∧ a < n) := by
              simp only [List.length_cons]
              omega
            rw [if_neg h1, if_neg h2, if_neg h3]
      · have h1 : ¬ (i + 1 ≤ b ∧ b < i + 1 + rest.length ∧ a < n) := fun h => ha h.2.2
        have h2 : ¬ (b = i ∧ 0 ≤ a ∧ a < 0 + row.length) := by omega
        have h3 : ¬ (i ≤ b ∧ b < i + (row :: rest).length ∧ a < n) := fun h => ha h.2.2
        rw [if_neg h1, if_neg h2, if_neg h3]

theorem isSquare_replicate (n : Nat) :
    isSquare n (List.replicate n (List.replicate n ([] : GoString))) := by
  refine ⟨List.length_replicate _ _, ?_⟩
  intro r hr
  rw [List.eq_of_mem_replicate hr, List.length_replicate]

theorem isSquare_transposeTrim (rows : List (List GoString)) :
    isSquare rows.length (transposeTrim rows) := by
  refine ⟨by simp [transposeTrim], ?_⟩
  intro r hr
  simp only [transposeTrim, List.mem_map] at hr
  obtain ⟨j, _, rfl⟩ := hr
  simp

theorem cellAt_transposeTrim (rows : List (List GoString)) (a b : Nat)
    (ha : a < rows.length) (hb : b < rows.length) :
    cellAt (transposeTrim rows) a b = Trim (cellAt rows b a) := by
  simp [cellAt, transposeTrim, List.getElem?_range ha, List.getElem?_range hb]

theorem cellAt_outside (n : Nat) (g : List (List GoString)) (hd : isSquare n g) (a b : Nat)
    (h : n ≤ a ∨ n ≤ b) : cellAt g a b = [] := by
  unfold cellAt
  by_cases ha : a < g.length
  · have hr : (g[a]).length = n := hd.2 _ (List.getElem_mem ha)
    have hb : n ≤ b := by
      rcases h with h | h
      · rw [hd.1] at ha
        omega
      · exact h
    have hgb : (g[a])[b]? = none := List.getElem?_eq_none (by omega)
    simp only [List.getD_eq_getElem?_getD, List.getElem?_eq_getElem ha, Option.getD_some, hgb]
    rfl
  · have hg : g[a]? = none := List.getElem?_eq_none (by omega)
    simp only [List.getD_eq_getElem?_getD, hg]
    simp

/-- Two square grids with the same cells are equal. -/
theorem isSquare_ext (n : Nat) (g1 g2 : List (List GoString)) (h1 : isSquare n g1)
    (h2 : isSquare n g2) (h : ∀ a b, a < n → b < n → cellAt g1 a b = cellAt g2 a b) :
    g1 = g2 := by
  apply List.ext_getElem (by rw [h1.1, h2.1])
  intro a ha1 ha2
  have hr1 : (g1[a]).length = n := h1.2 _ (List.getElem_mem ha1)
  have hr2 : (g2[a]).length = n := h2.2 _ (List.getElem_mem ha2)
  apply List.ext_getElem (by rw [hr1, hr2])
  intro b hb1 hb2
  have := h a b (by rw [← h1.1]; exact ha1) (by rw [← hr1]; exact hb1)
  simpa [cellAt, List.getElem?_eq_getElem ha1, List.getElem?_eq_getElem ha2,
    List.getElem?_eq_getElem hb1, List.getElem?_eq_getElem hb2] using this

/-- On a grid of `n` rows of `n` cells the loops of `invert` do not panic and build
the transposed grid of trimmed cells. -/
theorem invertRds_eq (m : Matrix) (hsq : isSquare m.records.length m.records) :
    m.invertRds = some (transposeTrim m.records) := by
  obtain ⟨rds1, hrun, hd1, hcell⟩ :=
    invertRows_spec m.records.length m.records 0 _ (isSquare_replicate m.records.length)
      (by omega) hsq.2
  unfold Matrix.invertRds
  rw [hrun]
  congr 1
  apply isSquare_ext m.records.length _ _ hd1 (isSquare_transposeTrim m.records)
  intro a b ha hb
  rw [hcell a b, cellAt_transposeTrim _ a b ha hb, if_pos (by omega)]
  simp

/-! ## `strings.Join`, `strings.Trim` and splitting -/

theorem Join_cons_cons (e e2 : GoString) (rest : List GoString) (sep : GoString) :
    Join (e :: e2 :: rest) sep = e ++ sep ++ Join (e2 :: rest) sep := by
  rw [Join]
  simp

theorem intercalate_cons_cons (sep x y : GoString) (xs : List GoString) :
    sep.intercalate (x :: y :: xs) = x ++ sep ++ sep.intercalate (y :: xs) := by
  simp [List.intercalate, List.append_assoc]

theorem Join_eq_intercalate (elems : List GoString) (sep : GoString) :
    Join elems sep = sep.intercalate elems := by
  induction elems with
  | nil => rfl
  | cons e rest ih =>
    cases rest with
    | nil => simp [Join, List.intercalate]
    | cons e2 rest2 => rw [Join_cons_cons, ih, intercalate_cons_cons]

theorem splitOn_Join (elems : List GoString) (hne : elems ≠ [])
    (h : ∀ e ∈ elems, (44 : Byte) ∉ e) : (Join elems (str ",")).splitOn 44 = elems := by
  rw [Join_eq_intercalate]
  exact List.splitOn_intercalate _ 44 h hne

theorem Join_append (a b : List GoString) (sep : GoString) (ha : a ≠ []) (hb : b ≠ []) :
    Join (a ++ b) sep = Join a sep ++ sep ++ Join b sep := by
  induction a with
  | nil => exact absurd rfl ha
  | cons e rest ih =>
    cases rest with
    | nil =>
      cases b with
      | nil => exact absurd rfl hb
      | cons b1 bs => simp [Join_cons_cons, Join]
    | cons e2 rest2 =>
      have := ih (by simp)
      simp only [List.cons_append] at this ⊢
      rw [Join_cons_cons, this, Join_cons_cons]
      simp [List.append_assoc]

theorem not_mem_Join (elems : List GoString) (sep : GoString) (x : Byte)
    (h : ∀ e ∈ elems, x ∉ e) (hs : x ∉ sep) : x ∉ Join elems sep := by
  induction elems with
  | nil => simp [Join]
  | cons e rest ih =>
    cases rest with
    | nil => simpa [Join] using h
    | cons e2 rest2 =>
      rw [Join_cons_cons]
      have h1 := h e (List.mem_cons_self _ _)
      have h2 := ih (fun e1 he1 => h e1 (List.mem_cons_of_mem _ he1))
      simp [h1, h2, hs]

/-- The text made of newline-terminated lines splits back into these lines, and an
empty rest after the last newline. -/
theorem splitOn_lines (lines : List GoString) (h : ∀ l ∈ lines, (10 : Byte) ∉ l) :
    ((lines.map (fun l => l ++ str "\n")).flatten).splitOn 10 = lines ++ [[]] := by
  have hint : ∀ ls : List GoString,
      (ls.map (fun l => l ++ str "\n")).flatten = (str "\n").intercalate (ls ++ [[]]) := by
    intro ls
    induction ls with
    | nil => rfl
    | cons l rest ih =>
      cases rest with
      | nil => simp [List.intercalate]
      | cons l2 rest2 =>
        rw [List.map_cons, List.flatten_cons, ih]
        simp only [List.cons_append]
        rw [intercalate_cons_cons]
  rw [hint]
  apply List.splitOn_intercalate _ 10 _ (by simp)
  intro l hl
  rcases List.mem_append.1 hl with hl | hl
  · exact h l hl
  · simp only [List.mem_singleton] at hl
    subst hl
    simp

theorem mem_dropWhile_or (p : Byte → Bool) (l : List Byte) (c : Byte) (hc : c ∈ l) :
    p c = true ∨ c ∈ l.dropWhile p := by
  rw [← List.takeWhile_append_dropWhile p l] at hc
  rcases List.mem_append.1 hc with h | h
  · exact Or.inl (List.mem_takeWhile_imp h)
  · exact Or.inr h

theorem mem_Trim_or_space (s : GoString) (c : Byte) (hc : c ∈ s) : c = 32 ∨ c ∈ Trim s := by
  have h1 : (c == 32) = true ∨ c ∈ s.rdropWhile (fun c => c == 32) := by
    have := mem_dropWhile_or (fun c => c == 32) s.reverse c (List.mem_reverse.2 hc)
    rcases this with h | h
    · exact Or.inl h
    · right
      unfold List.rdropWhile
      exact List.mem_reverse.2 h
  rcases h1 with h | h
  · left
    simpa using h
  · rcases mem_dropWhile_or (fun c => c == 32) _ c h with h2 | h2
    · left
      simpa using h2
    · exact Or.inr h2

theorem Trim_Trim (s : GoString) : Trim (Trim s) = Trim s := by
  have hr : (Trim s).rdropWhile (fun c => c == 32) = Trim s := by
    rw [List.rdropWhile_eq_self_iff]
    intro hl
    have hsuf : Trim s <:+ s.rdropWhile (fun c => c == 32) := List.dropWhile_suffix _
    have hne : s.rdropWhile (fun c => c == 32) ≠ [] := by
      intro h0
      rw [h0] at hsuf
      exact hl (List.suffix_nil.1 hsuf)
    rw [hsuf.getLast hl]
    exact List.rdropWhile_last_not _ _ hne
  unfold Trim at hr ⊢
  rw [hr, List.dropWhile_idempotent]

/-! ## Cells of a valid grid -/

theorem literal_bytes (s : GoString) (h : isIntLiteral s = true) :
    ∀ c ∈ s, c = 43 ∨ c = 45 ∨ isDigit c = true := by
  cases s with
  | nil => simp
  | cons c rest =>
    intro x hx
    by_cases hsign : (c == 43 || c == 45) = true
    · simp only [isIntLiteral, hsign, if_true, Bool.and_eq_true, List.all_eq_true] at h
      rcases List.mem_cons.1 hx with rfl | hx
      · simp only [Bool.or_eq_true, beq_iff_eq] at hsign
        rcases hsign with h1 | h1
        · exact Or.inl h1
        · exact Or.inr (Or.inl h1)
      · exact Or.inr (Or.inr (h.2 x hx))
    · simp only [isIntLiteral, hsign, if_false, List.all_eq_true, Bool.false_eq_true] at h
      exact Or.inr (Or.inr (h x hx))

/-- A cell that parses holds neither a comma nor a newline, before and after
trimming. -/
theorem parses_no_separator (cell : GoString) (h : parses cell = true) :
    ((44 : Byte) ∉ Trim cell ∧ (10 : Byte) ∉ Trim cell) ∧
      ((44 : Byte) ∉ cell ∧ (10 : Byte) ∉ cell) := by
  have hl := literal_bytes (Trim cell) ((parses_iff cell).1 h).1
  have key : ∀ x : Byte, x ≠ 32 → x ≠ 43 → x ≠ 45 → isDigit x = false →
      x ∉ Trim cell ∧ x ∉ cell := by
    intro x h32 h43 h45 hd
    have h1 : x ∉ Trim cell := by
      intro hx
      rcases hl x hx with h0 | h0 | h0
      · exact h43 h0
      · exact h45 h0
      · rw [hd] at h0
        cases h0
    refine ⟨h1, ?_⟩
    intro hx
    rcases mem_Trim_or_space cell x hx with h0 | h0
    · exact h32 h0
    · exact h1 h0
  have k44 := key 44 (by decide) (by decide) (by decide) (by decide)
  have k10 := key 10 (by decide) (by decide) (by decide) (by decide)
  exact ⟨⟨k44.1, k10.1⟩, ⟨k44.2, k10.2⟩⟩

theorem parses_Trim (cell : GoString) (h : parses cell = true) : parses (Trim cell) = true := by
  unfold parses cellError at h ⊢
  rw [Trim_Trim]
  exact h

/-- What `isValid` establishes: a positive size, a square grid, cells that parse. -/
theorem isValid_facts (uni : GoString → GoString) (m : Matrix) (hv : m.isValid uni = none) :
    0 < m.records.length ∧ isSquare m.records.length m.records ∧
      ∀ row ∈ m.records, ∀ cell ∈ row, parses cell = true := by
  obtain ⟨hne, hall⟩ := (isValid_eq_none uni m).1 hv
  refine ⟨List.length_pos.2 hne, ⟨rfl, fun r hr => (hall r hr).1⟩, fun r hr => (hall r hr).2⟩

theorem cellAt_mem (n : Nat) (g : List (List GoString)) (hd : isSquare n g) (a b : Nat)
    (ha : a < n) (hb : b < n) : ∃ row ∈ g, cellAt g a b ∈ row := by
  have ha1 : a < g.length := by rw [hd.1]; exact ha
  have hr : (g[a]).length = n := hd.2 _ (List.getElem_mem ha1)
  have hb1 : b < (g[a]).length := by rw [hr]; exact hb
  refine ⟨g[a], List.getElem_mem ha1, ?_⟩
  have : cellAt g a b = (g[a])[b] := by
    simp [cellAt, List.getElem?_eq_getElem ha1, List.getElem?_eq_getElem hb1]
  rw [this]
  exact List.getElem_mem hb1

theorem renderRows_eq (rows : List (List GoString)) :
    renderRows rows = ((rows.map (fun row => Join row (str ","))).map
      (fun l => l ++ str "\n")).flatten := by
  have h : ∀ (acc : GoString) (rs : List (List GoString)),
      rs.foldl (fun result row => result ++ Join row (str ",") ++ str "\n") acc =
        acc ++ ((rs.map (fun row => Join row (str ","))).map (fun l => l ++ str "\n")).flatten := by
    intro acc rs
    induction rs generalizing acc with
    | nil => simp
    | cons r rest ih =>
      rw [List.foldl_cons, ih]
      simp [List.append_assoc]
  simpa [renderRows] using h [] rows

/-- The rows of the transposed grid of a valid grid: `n` trimmed cells that parse. -/
theorem transposeTrim_rows (uni : GoString → GoString) (m : Matrix)
    (hv : m.isValid uni = none) :
    ∀ row ∈ transposeTrim m.records,
      row ≠ [] ∧ row.length = m.records.length ∧
        ∀ cell ∈ row, parses cell = true ∧ Trim cell = cell := by
  obtain ⟨hpos, hsq, hall⟩ := isValid_facts uni m hv
  intro row hrow
  simp only [transposeTrim, List.mem_map, List.mem_range] at hrow
  obtain ⟨j, hj, rfl⟩ := hrow
  refine ⟨?_, by simp, ?_⟩
  · intro h0
    have := congrArg List.length h0
    rw [List.length_map, List.length_range, List.length_nil] at this
    omega
  · intro cell hcell
    simp only [List.mem_map, List.mem_range] at hcell
    obtain ⟨i, hi, rfl⟩ := hcell
    obtain ⟨r, hr, hmem⟩ := cellAt_mem _ _ hsq i j hi hj
    exact ⟨parses_Trim _ (hall r hr _ hmem), Trim_Trim _⟩

/-! ## `invert` -/

theorem invert_eq (uni : GoString → GoString) (m : Matrix) (hv : m.isValid uni = none) :
    m.invert = some (renderRows (transposeTrim m.records)) := by
  unfold Matrix.invert
  rw [invertRds_eq m (isValid_facts uni m hv).2.1]

/-- C5: for a grid that passes `isValid`, `invert` returns as many newline-terminated
lines as the grid has rows, and field `i` of line `j`, split on commas, is the
trimmed input cell of row `i`, column `j`. -/
theorem invert_transposes (uni : GoString → GoString) (m : Matrix)
    (hv : m.isValid uni = none) :
    ∃ lines : List GoString,
      m.invert = some ((lines.map (fun l => l ++ str "\n")).flatten) ∧
      lines.length = m.records.length ∧
      (∀ l ∈ lines, (10 : Byte) ∉ l) ∧
      ∀ j, j < m.records.length →
        ((lines.getD j []).splitOn 44).length = m.records.length ∧
        ∀ i, i < m.records.length →
          ((lines.getD j []).splitOn 44).getD i [] = Trim (cellAt m.records i j) := by
  have hrows := transposeTrim_rows uni m hv
  refine ⟨(transposeTrim m.records).map (fun row => Join row (str ",")), ?_, ?_, ?_, ?_⟩
  · rw [invert_eq uni m hv, renderRows_eq]
  · simp [transposeTrim]
  · intro l hl
    simp only [List.mem_map] at hl
    obtain ⟨row, hrow, rfl⟩ := hl
    apply not_mem_Join
    · intro e he
      exact (parses_no_separator e ((hrows row hrow).2.2 e he).1).2.2
    · decide
  · intro j hj
    have hline : ((transposeTrim m.records).map (fun row => Join row (str ","))).getD j [] =
        Join ((List.range m.records.length).map (fun i => Trim (cellAt m.records i j)))
          (str ",") := by
      simp [transposeTrim, List.getElem?_range hj]
    have hmem : (List.range m.records.length).map (fun i => Trim (cellAt m.records i j)) ∈
        transposeTrim m.records := by
      simp only [transposeTrim, List.mem_map, List.mem_range]
      exact ⟨j, hj, rfl⟩
    have hsplit := splitOn_Join _ (hrows _ hmem).1
      (fun e he => (parses_no_separator e ((hrows _ hmem).2.2 e he).1).2.1)
    rw [hline, hsplit]
    refine ⟨by simp, ?_⟩
    intro i hi
    simp [List.getElem?_range hi]

theorem invert_transposes_witness :
    exampleGrid.isValid uniUnused = none ∧
      (∃ lines : List GoString,
        exampleGrid.invert = some ((lines.map (fun l => l ++ str "\n")).flatten) ∧
        lines.length = exampleGrid.records.length ∧
        (∀ l ∈ lines, (10 : Byte) ∉ l) ∧
        ∀ j, j < exampleGrid.records.length →
          ((lines.getD j []).splitOn 44).length = exampleGrid.records.length ∧
          ∀ i, i < exampleGrid.records.length →
            ((lines.getD j []).splitOn 44).getD i [] = Trim (cellAt exampleGrid.records i j)) ∧
      exampleGrid.invert = some (str "1,3\n2,4\n") :=
  ⟨by decide, invert_transposes uniUnused exampleGrid (by decide), by decide⟩

/-- C6: for a grid that passes `isValid`, the grid `rds` that `invert` builds is the
one its output text splits back into, it passes `isValid` again, and transposing it
yields the input with every cell trimmed; that is the input itself when no cell has
surrounding spaces. -/
theorem invert_invert (uni : GoString → GoString) (m : Matrix) (hv : m.isValid uni = none) :
    ∃ rds,
      m.invertRds = some rds ∧
      m.invert = some (renderRows rds) ∧
      textGrid (renderRows rds) = rds ∧
      (Matrix.mk rds).isValid uni = none ∧
      (Matrix.mk rds).invertRds = some (m.records.map (fun row => row.map Trim)) ∧
      ((∀ row ∈ m.records, ∀ cell ∈ row, Trim cell = cell) →
        (Matrix.mk rds).invertRds = some m.records) := by
  obtain ⟨hpos, hsq, hall⟩ := isValid_facts uni m hv
  have hrows := transposeTrim_rows uni m hv
  have hsq2 := isSquare_transposeTrim m.records
  have hlen2 : (transposeTrim m.records).length = m.records.length := hsq2.1
  have htwice : (Matrix.mk (transposeTrim m.records)).invertRds =
      some (m.records.map (fun row => row.map Trim)) := by
    rw [invertRds_eq _ (by rw [hlen2]; exact hsq2)]
    congr 1
    show transposeTrim (transposeTrim m.records) = _
    have hsq3 := isSquare_transposeTrim (transposeTrim m.records)
    rw [hlen2] at hsq3
    apply isSquare_ext m.records.length _ _ hsq3
    · refine ⟨by simp, ?_⟩
      intro r hr
      simp only [List.mem_map] at hr
      obtain ⟨r0, hr0, rfl⟩ := hr
      rw [List.length_map]
      exact hsq.2 r0 hr0
    · intro a b ha hb
      rw [cellAt_transposeTrim _ a b (by rw [hlen2]; exact ha) (by rw [hlen2]; exact hb),
        cellAt_transposeTrim _ b a hb ha, Trim_Trim]
      simp [cellAt, List.getD_eq_getElem?_getD, Option.map_map]
      have ha1 : a < m.records.length := ha
      have hb1 : b < (m.records[a]).length := by
        rw [hsq.2 _ (List.getElem_mem ha1)]
        exact hb
      simp [List.getElem?_eq_getElem ha1, List.getElem?_eq_getElem hb1]
  refine ⟨transposeTrim m.records, invertRds_eq m hsq, invert_eq uni m hv, ?_, ?_, htwice, ?_⟩
  · rw [renderRows_eq, textGrid, splitOn_lines, List.dropLast_concat, List.map_map]
    · conv_rhs => rw [← List.map_id (transposeTrim m.records)]
      apply List.map_congr_left
      intro row hrow
      simp only [Function.comp_apply, id_eq]
      exact splitOn_Join row (hrows row hrow).1
        (fun e he => (parses_no_separator e ((hrows row hrow).2.2 e he).1).2.1)
    · intro l hl
      simp only [List.mem_map] at hl
      obtain ⟨row, hrow, rfl⟩ := hl
      apply not_mem_Join
      · intro e he
        exact (parses_no_separator e ((hrows row hrow).2.2 e he).1).2.2
      · decide
  · rw [isValid_eq_none]
    refine ⟨?_, ?_⟩
    · intro h0
      have h1 : (transposeTrim m.records).length = 0 := by
        have := congrArg List.length h0
        simpa using this
      omega
    · intro row hrow
      refine ⟨?_, fun cell hcell => ((hrows row hrow).2.2 cell hcell).1⟩
      show row.length = (transposeTrim m.records).length
      rw [hlen2]
      exact (hrows row hrow).2.1
  · intro hno
    rw [htwice]
    congr 1
    conv_rhs => rw [← List.map_id m.records]
    apply List.map_congr_left
    intro row hrow
    conv_rhs => rw [id_eq, ← List.map_id row]
    apply List.map_congr_left
    intro cell hcell
    exact hno row hrow cell hcell

theorem invert_invert_witness :
    spacedGrid.isValid uniUnused = none ∧
      ∃ rds,
        spacedGrid.invertRds = some rds ∧
        spacedGrid.invert = some (renderRows rds) ∧
        textGrid (renderRows rds) = rds ∧
        (Matrix.mk rds).isValid uniUnused = none ∧
        (Matrix.mk rds).invertRds = some (spacedGrid.records.map (fun row => row.map Trim)) ∧
        ((∀ row ∈ spacedGrid.records, ∀ cell ∈ row, Trim cell = cell) →
          (Matrix.mk rds).invertRds = some spacedGrid.records) :=
  ⟨by decide, invert_invert uniUnused spacedGrid (by decide)⟩

/-! ## `flatten` -/

theorem flatten_fold_eq (rows : List (List GoString)) :
    rows.foldl (fun result row => result ++ Join row (str ",") ++ str ",") [] =
      (rows.map (fun row => Join row (str ",") ++ str ",")).flatten := by
  have h : ∀ (acc : GoString) (rs : List (List GoString)),
      rs.foldl (fun result row => result ++ Join row (str ",") ++ str ",") acc =
        acc ++ (rs.map (fun row => Join row (str ",") ++ str ",")).flatten := by
    intro acc rs
    induction rs generalizing acc with
    | nil => simp
    | cons r rest ih =>
      rw [List.foldl_cons, ih]
      simp [List.append_assoc]
  simpa using h [] rows

theorem flatten_rows_eq (rows : List (List GoString)) (hne : rows ≠ [])
    (hrow : ∀ r ∈ rows, r ≠ []) :
    (rows.map (fun row => Join row (str ",") ++ str ",")).flatten =
      Join rows.flatten (str ",") ++ str "," := by
  induction rows with
  | nil => exact absurd rfl hne
  | cons r rest ih =>
    cases rest with
    | nil => simp
    | cons r2 rest2 =>
      have hr : r ≠ [] := hrow r (List.mem_cons_self _ _)
      have hr2 : r2 ≠ [] := hrow r2 (List.mem_cons_of_mem _ (List.mem_cons_self _ _))
      have hfl : (r2 :: rest2).flatten ≠ [] := by
        rw [List.flatten_cons]
        intro h0
        exact hr2 (List.append_eq_nil.1 h0).1
      have := ih (by simp) (fun x hx => hrow x (List.mem_cons_of_mem _ hx))
      have e : (r :: r2 :: rest2).flatten = r ++ (r2 :: rest2).flatten := List.flatten_cons
      rw [List.map_cons, List.flatten_cons, this, e, Join_append _ _ _ hr hfl]
      simp [List.append_assoc]

/-- On a grid that passes `isValid`, `flatten` does not panic and returns the cells
as they stand, joined by commas, and a newline. -/
theorem flatten_eq (uni : GoString → GoString) (m : Matrix) (hv : m.isValid uni = none) :
    m.flatten = some (Join m.records.flatten (str ",") ++ str "\n") := by
  obtain ⟨hpos, hsq, hall⟩ := isValid_facts uni m hv
  have hne : m.records ≠ [] := List.length_pos.1 hpos
  have hrow : ∀ r ∈ m.records, r ≠ [] := by
    intro r hr h0
    have := hsq.2 r hr
    rw [h0] at this
    simp at this
    omega
  unfold Matrix.flatten
  rw [flatten_fold_eq, flatten_rows_eq _ hne hrow]
  have hlen : ¬ (Join m.records.flatten (str ",") ++ str ",").length = 0 := by
    simp [str]
  simp only [hlen, if_false]
  congr 2
  have h1 : (Join m.records.flatten (str ",") ++ str ",").length - 1 =
      (Join m.records.flatten (str ",")).length := by
    simp [str]
  rw [h1, List.take_left]

/-- The cells of a valid grid, in row-major order: none is empty or holds a comma or
a newline. -/
theorem cells_no_separator (uni : GoString → GoString) (m : Matrix)
    (hv : m.isValid uni = none) :
    m.records.flatten ≠ [] ∧
      ∀ cell ∈ m.records.flatten, (44 : Byte) ∉ cell ∧ (10 : Byte) ∉ cell := by
  obtain ⟨hpos, hsq, hall⟩ := isValid_facts uni m hv
  refine ⟨?_, ?_⟩
  · intro h0
    have hlen := congrArg List.length h0
    obtain ⟨r, hr, hmem⟩ := cellAt_mem _ _ hsq 0 0 hpos hpos
    have : cellAt m.records 0 0 ∈ m.records.flatten := List.mem_flatten.2 ⟨r, hr, hmem⟩
    rw [h0] at this
    simp at this
  · intro cell hcell
    obtain ⟨r, hr, hmem⟩ := List.mem_flatten.1 hcell
    exact (parses_no_separator cell (hall r hr cell hmem)).2

/-- C7, as stated, fails: `flatten` does not trim.  On the valid grid with rows
` 1`,`2 ` and ` 3 `,`-4` it keeps the spaces around the cells. -/
theorem flatten_keeps_spaces :
    spacedGrid.isValid uniUnused = none ∧
      spacedGrid.flatten = some (str " 1,2 , 3 ,-4\n") ∧
      spacedGrid.flatten ≠
        some (Join (spacedGrid.records.flatten.map Trim) (str ",") ++ str "\n") := by
  decide

/-- C7, amended: for a grid that passes `isValid`, `flatten` returns one line made of
every cell as it stands in the input, surrounding spaces kept, in row-major order,
joined by single commas and ended by one newline: the line holds no other newline
and splits on commas into exactly the cells. -/
theorem flatten_joins_cells (uni : GoString → GoString) (m : Matrix)
    (hv : m.isValid uni = none) :
    m.flatten = some (Join m.records.flatten (str ",") ++ str "\n") ∧
      (10 : Byte) ∉ Join m.records.flatten (str ",") ∧
      (Join m.records.flatten (str ",")).splitOn 44 = m.records.flatten := by
  obtain ⟨hne, hsep⟩ := cells_no_separator uni m hv
  refine ⟨flatten_eq uni m hv, ?_, ?_⟩
  · exact not_mem_Join _ _ _ (fun e he => (hsep e he).2) (by decide)
  · exact splitOn_Join _ hne (fun e he => (hsep e he).1)

theorem flatten_joins_cells_witness :
    spacedGrid.isValid uniUnused = none ∧
      (spacedGrid.flatten = some (Join spacedGrid.records.flatten (str ",") ++ str "\n") ∧
        (10 : Byte) ∉ Join spacedGrid.records.flatten (str ",") ∧
        (Join spacedGrid.records.flatten (str ",")).splitOn 44 = spacedGrid.records.flatten) :=
  ⟨by decide, flatten_joins_cells uniUnused spacedGrid (by decide)⟩

theorem flatten_getD (k : Nat) (g : List (List GoString)) (hk : ∀ r ∈ g, r.length = k) :
    ∀ i j, i < g.length → j < k → g.flatten.getD (i * k + j) [] = cellAt g i j := by
  induction g with
  | nil =>
    intro i j hi
    simp at hi
  | cons r rest ih =>
    intro i j hi hj
    have hr : r.length = k := hk r (List.mem_cons_self _ _)
    cases i with
    | zero =>
      have hj1 : j < r.length := by rw [hr]; exact hj
      simp [cellAt, List.getElem?_append_left hj1]
    | succ i =>
      have hge : r.length ≤ (i + 1) * k + j := by
        rw [hr, Nat.add_mul]
        omega
      have hsub : (i + 1) * k + j - r.length = i * k + j := by
        rw [hr, Nat.add_mul]
        omega
      have := ih (fun x hx => hk x (List.mem_cons_of_mem _ hx)) i j
        (by simpa using hi) hj
      simp only [cellAt, List.getD_eq_getElem?_getD] at this ⊢
      rw [List.flatten_cons, List.getElem?_append_right hge, hsub, this]
      simp

theorem flatten_length (k : Nat) (g : List (List GoString)) (hk : ∀ r ∈ g, r.length = k) :
    g.flatten.length = g.length * k := by
  induction g with
  | nil => simp
  | cons r rest ih =>
    rw [List.flatten_cons, List.length_append, ih (fun x hx => hk x (List.mem_cons_of_mem _ hx)),
      hk r (List.mem_cons_self _ _), List.length_cons, Nat.add_mul]
    omega

/-- C8: for a grid that passes `isValid` with `N` rows, the output of `flatten`
without its final newline splits on commas into `N * N` tokens, and the token at
position `i * N + j` is the input cell of row `i`, column `j`. -/
theorem flatten_tokens (uni : GoString → GoString) (m : Matrix) (hv : m.isValid uni = none) :
    ∃ out,
      m.flatten = some out ∧
      out.getLast? = some 10 ∧
      (out.dropLast.splitOn 44).length = m.records.length * m.records.length ∧
      ∀ i j, i < m.records.length → j < m.records.length →
        (out.dropLast.splitOn 44).getD (i * m.records.length + j) [] =
          cellAt m.records i j := by
  obtain ⟨hpos, hsq, hall⟩ := isValid_facts uni m hv
  obtain ⟨hne, hsep⟩ := cells_no_separator uni m hv
  have hsplit := splitOn_Join _ hne (fun e he => (hsep e he).1)
  have hdrop : (Join m.records.flatten (str ",") ++ str "\n").dropLast =
      Join m.records.flatten (str ",") := List.dropLast_concat
  refine ⟨_, flatten_eq uni m hv, ?_, ?_, ?_⟩
  · have hnl : str "\n" = [10] := by decide
    simp [hnl]
  · rw [hdrop, hsplit]
    exact flatten_length _ _ hsq.2
  · intro i j hi hj
    rw [hdrop, hsplit]
    exact flatten_getD _ _ hsq.2 i j hi hj

theorem flatten_tokens_witness :
    exampleGrid.isValid uniUnused = none ∧
      (∃ out,
        exampleGrid.flatten = some out ∧
        out.getLast? = some 10 ∧
        (out.dropLast.splitOn 44).length =
          exampleGrid.records.length * exampleGrid.records.length ∧
        ∀ i j, i < exampleGrid.records.length → j < exampleGrid.records.length →
          (out.dropLast.splitOn 44).getD (i * exampleGrid.records.length + j) [] =
            cellAt exampleGrid.records i j) ∧
      exampleGrid.flatten = some (str "1,2,3,4\n") :=
  ⟨by decide, flatten_tokens uniUnused exampleGrid (by decide), by decide⟩

/-! ## `sum` -/

theorem foldl_add_eq (v : GoString → Int) (l : List GoString) (acc : Int) :
    l.foldl (fun result num => result + v num) acc = acc + (l.map v).sum := by
  induction l generalizing acc with
  | nil => simp
  | cons x rest ih =>
    rw [List.foldl_cons, ih]
    simp [add_assoc]

/-- The accumulator of `sum`: the sum, over the rows, of the sums of what `ParseInt`
returns for the trimmed cells. -/
theorem sumBig_eq (m : Matrix) :
    m.sumBig = (m.records.map
      (fun row => (row.map (fun num => (ParseInt (Trim num) 64).1)).sum)).sum := by
  have h : ∀ (rows : List (List GoString)) (acc : Int),
      rows.foldl (fun result row =>
        row.foldl (fun result num => result + (ParseInt (Trim num) 64).1) result) acc =
      acc + (rows.map
        (fun row => (row.map (fun num => (ParseInt (Trim num) 64).1)).sum)).sum := by
    intro rows
    induction rows with
    | nil => simp
    | cons r rest ih =>
      intro acc
      rw [List.foldl_cons, ih, foldl_add_eq]
      simp [add_assoc]
  simpa [Matrix.sumBig] using h m.records 0

/-- C9: for a grid that passes `isValid`, `sum` returns the decimal text of the exact
sum of the integers that the trimmed cells write, followed by a newline. -/
theorem sum_exact (uni : GoString → GoString) (m : Matrix) (hv : m.isValid uni = none) :
    m.sum =
      bigString ((m.records.map
        (fun row => (row.map (fun cell => literalValue (Trim cell))).sum)).sum) ++
      str "\n" := by
  obtain ⟨hpos, hsq, hall⟩ := isValid_facts uni m hv
  unfold Matrix.sum
  rw [sumBig_eq]
  congr 3
  apply List.map_congr_left
  intro row hrow
  congr 1
  apply List.map_congr_left
  intro cell hcell
  rw [ParseInt_of_parses cell (hall row hrow cell hcell)]

theorem sum_exact_witness :
    maxIntGrid.isValid uniUnused = none ∧
      maxIntGrid.sum =
        bigString ((maxIntGrid.records.map
          (fun row => (row.map (fun cell => literalValue (Trim cell))).sum)).sum) ++
        str "\n" ∧
      maxIntGrid.sum = str "36893488147419103228\n" :=
  ⟨by decide, sum_exact uniUnused maxIntGrid (by decide), by decide⟩

theorem rows_eq_range (n : Nat) (g : List (List GoString)) (hsq : isSquare n g) :
    g = (List.range n).map (fun a => (List.range n).map (fun b => cellAt g a b)) := by
  apply isSquare_ext n _ _ hsq
  · refine ⟨by simp, ?_⟩
    intro r hr
    simp only [List.mem_map] at hr
    obtain ⟨a, _, rfl⟩ := hr
    simp
  · intro a b ha hb
    conv_rhs => rw [cellAt]
    simp [List.getElem?_range ha, List.getElem?_range hb]

theorem sum_grid (n : Nat) (g : List (List GoString)) (hsq : isSquare n g)
    (v : GoString → Int) :
    (g.map (fun row => (row.map v).sum)).sum =
      ((List.range n).map
        (fun a => ((List.range n).map (fun b => v (cellAt g a b))).sum)).sum := by
  conv_lhs => rw [rows_eq_range n g hsq]
  simp [List.map_map, Function.comp_def]

theorem sum_range_comm (f : Nat → Nat → Int) (n k : Nat) :
    ((List.range n).map (fun a => ((List.range k).map (fun b => f a b)).sum)).sum =
      ((List.range k).map (fun b => ((List.range n).map (fun a => f a b)).sum)).sum := by
  induction n with
  | zero => simp
  | succ n ih =>
    simp only [List.range_succ, List.map_append, List.sum_append, List.map_cons, List.map_nil,
      List.sum_cons, List.sum_nil, add_zero]
    rw [ih, List.sum_map_add]

/-- C10: for a grid that passes `isValid`, `sum` of the grid that `invert` builds is
`sum` of the grid. -/
theorem sum_invert (uni : GoString → GoString) (m : Matrix) (hv : m.isValid uni = none) :
    ∃ rds, m.invertRds = some rds ∧ (Matrix.mk rds).sum = m.sum := by
  obtain ⟨hpos, hsq, hall⟩ := isValid_facts uni m hv
  refine ⟨transposeTrim m.records, invertRds_eq m hsq, ?_⟩
  unfold Matrix.sum
  rw [sumBig_eq, sumBig_eq]
  congr 2
  show ((transposeTrim m.records).map _).sum = _
  rw [sum_grid _ _ (isSquare_transposeTrim m.records), sum_grid _ _ hsq,
    sum_range_comm (fun a b => (ParseInt (Trim (cellAt m.records a b)) 64).1)]
  congr 1
  apply List.map_congr_left
  intro a ha
  congr 1
  apply List.map_congr_left
  intro b hb
  rw [cellAt_transposeTrim _ a b (List.mem_range.1 ha) (List.mem_range.1 hb), Trim_Trim]

theorem sum_invert_witness :
    spacedGrid.isValid uniUnused = none ∧
      (∃ rds, spacedGrid.invertRds = some rds ∧ (Matrix.mk rds).sum = spacedGrid.sum) ∧
      spacedGrid.sum = str "2\n" :=
  ⟨by decide, sum_invert uniUnused spacedGrid (by decide), by decide⟩

/-! ## `multiply` -/

/-- One row of `multiply` from the state `st`: the product goes on with what
`ParseInt` returns for each trimmed cell, and each parse error adds its text to the
standard output. -/
theorem multiply_row_eq (uni : GoString → GoString) (row : List GoString) (st : Int × GoString) :
    row.foldl
      (fun st num =>
        match ParseInt (Trim num) 64 with
        | (n, some err) => (st.1 * n, st.2 ++ err.Error uni)
        | (n, none) => (st.1 * n, st.2))
      st =
    (st.1 * (row.map (fun num => (ParseInt (Trim num) 64).1)).prod,
      st.2 ++ (row.map (fun num =>
        match (ParseInt (Trim num) 64).2 with
        | some err => err.Error uni
        | none => [])).flatten) := by
  induction row generalizing st with
  | nil => simp
  | cons num rest ih =>
    rw [List.foldl_cons, ih]
    rcases h : ParseInt (Trim num) 64 with ⟨n, oe⟩
    cases oe with
    | none => simp [h, mul_assoc]
    | some err => simp [h, mul_assoc, List.append_assoc]

/-- The state of `multiply` when its loops end, for any grid. -/
theorem multiplyLoop_eq (uni : GoString → GoString) (m : Matrix) :
    m.multiplyLoop uni =
      ((m.records.map
          (fun row => (row.map (fun num => (ParseInt (Trim num) 64).1)).prod)).prod,
        (m.records.map (fun row => (row.map (fun num =>
          match (ParseInt (Trim num) 64).2 with
          | some err => err.Error uni
          | none => [])).flatten)).flatten) := by
  have h : ∀ (rows : List (List GoString)) (st : Int × GoString),
      rows.foldl
        (fun st row => row.foldl
          (fun st num =>
            match ParseInt (Trim num) 64 with
            | (n, some err) => (st.1 * n, st.2 ++ err.Error uni)
            | (n, none) => (st.1 * n, st.2))
          st)
        st =
      (st.1 * (rows.map
          (fun row => (row.map (fun num => (ParseInt (Trim num) 64).1)).prod)).prod,
        st.2 ++ (rows.map (fun row => (row.map (fun num =>
          match (ParseInt (Trim num) 64).2 with
          | some err => err.Error uni
          | none => [])).flatten)).flatten) := by
    intro rows
    induction rows with
    | nil => simp
    | cons r rest ih =>
      intro st
      rw [List.foldl_cons, multiply_row_eq, ih]
      simp [mul_assoc, List.append_assoc]
  have := h m.records (1, [])
  simpa [Matrix.multiplyLoop] using this

/-- C11: for a grid that passes `isValid`, `multiply` returns the decimal text of the
exact product of the integers that the trimmed cells write, followed by a newline. -/
theorem multiply_exact (uni : GoString → GoString) (m : Matrix) (hv : m.isValid uni = none) :
    m.multiply uni =
      bigString ((m.records.map
        (fun row => (row.map (fun cell => literalValue (Trim cell))).prod)).prod) ++
      str "\n" := by
  obtain ⟨hpos, hsq, hall⟩ := isValid_facts uni m hv
  unfold Matrix.multiply
  rw [multiplyLoop_eq]
  dsimp only
  congr 3
  apply List.map_congr_left
  intro row hrow
  congr 1
  apply List.map_congr_left
  intro cell hcell
  rw [ParseInt_of_parses cell (hall row hrow cell hcell)]

theorem multiply_exact_witness :
    exampleGrid.isValid uniUnused = none ∧
      exampleGrid.multiply uniUnused =
        bigString ((exampleGrid.records.map
          (fun row => (row.map (fun cell => literalValue (Trim cell))).prod)).prod) ++
        str "\n" ∧
      exampleGrid.multiply uniUnused = str "24\n" ∧
      maxIntGrid.multiply uniUnused =
        str "7237005577332262210834635695349653859421902880380109739573089701262786560001\n" :=
  ⟨by decide, multiply_exact uniUnused exampleGrid (by decide), by decide, by decide⟩

theorem bigString_zero : bigString 0 = str "0" := by decide

/-- C12: for a grid that passes `isValid` and has a cell that, trimmed, is `0`,
`multiply` returns `0` and a newline. -/
theorem multiply_zero_cell (uni : GoString → GoString) (m : Matrix)
    (hv : m.isValid uni = none)
    (hz : ∃ row ∈ m.records, ∃ cell ∈ row, Trim cell = str "0") :
    m.multiply uni = str "0\n" := by
  obtain ⟨hpos, hsq, hall⟩ := isValid_facts uni m hv
  obtain ⟨row, hrow, cell, hcell, hzero⟩ := hz
  have hcellv : (ParseInt (Trim cell) 64).1 = 0 := by
    rw [ParseInt_of_parses cell (hall row hrow cell hcell), hzero]
    decide
  have hrowv : (row.map (fun num => (ParseInt (Trim num) 64).1)).prod = 0 := by
    apply List.prod_eq_zero
    rw [← hcellv]
    exact List.mem_map.2 ⟨cell, hcell, rfl⟩
  have hprod : (m.records.map
      (fun row => (row.map (fun num => (ParseInt (Trim num) 64).1)).prod)).prod = 0 := by
    apply List.prod_eq_zero
    rw [← hrowv]
    exact List.mem_map.2 ⟨row, hrow, rfl⟩
  unfold Matrix.multiply
  rw [multiplyLoop_eq]
  dsimp only
  rw [hprod, bigString_zero]
  decide

theorem multiply_zero_cell_witness :
    (Matrix.mk [[str "7", str " 0 "], [str "-3", str "5"]]).multiply uniUnused = str "0\n" :=
  multiply_zero_cell uniUnused (Matrix.mk [[str "7", str " 0 "], [str "-3", str "5"]])
    (by decide) (by decide)

theorem ParseInt_err_value (s : GoString) (e : NumError) (h : (ParseInt s 64).2 = some e) :
    (e.Err = .ErrSyntax ∧ (ParseInt s 64).1 = 0) ∨
      (e.Err = .ErrRange ∧
        ((ParseInt s 64).1 = 2 ^ 63 - 1 ∨ (ParseInt s 64).1 = -2 ^ 63)) := by
  cases s with
  | nil =>
    simp only [ParseInt, Option.some.injEq] at h
    subst h
    exact Or.inl ⟨rfl, rfl⟩
  | cons c rest =>
    rw [ParseInt_cons] at h ⊢
    split at h
    · simp only [Option.some.injEq] at h
      subst h
      exact Or.inl ⟨rfl, rfl⟩
    · split at h
      · rename_i hif
        simp only [Option.some.injEq] at h
        subst h
        rw [if_pos hif]
        exact Or.inr ⟨rfl, Or.inl rfl⟩
      · split at h
        · rename_i hif1 hif2
          simp only [Option.some.injEq] at h
          subst h
          rw [if_neg hif1, if_pos hif2]
          exact Or.inr ⟨rfl, Or.inr rfl⟩
        · simp at h

/-- C13, as stated, fails: on a grid with a cell that does not parse, `multiply`
prints the error and carries on.  Here the cell `99999999999999999999` counts as
`9223372036854775807` in the product that is returned. -/
theorem multiply_counts_unparsable_cell :
    unvalidatedGrid.isValid uniUnused ≠ none ∧
      (∃ cell ∈ unvalidatedGrid.records.flatten, (ParseInt (Trim cell) 64).2 ≠ none) ∧
      unvalidatedGrid.multiplyLoop uniUnused =
        (221360928884514619368,
          str "strconv.ParseInt: parsing \"99999999999999999999\": value out of range") ∧
      unvalidatedGrid.multiply uniUnused = str "221360928884514619368\n" := by
  decide

/-- C13, amended: on any grid `multiply` writes the text of each parse error to the
standard output and carries on; it returns the decimal text of the product in which
every cell counts with what `ParseInt` returns for it, which with a syntax error is
0 and with a range error the bound `2^63 - 1` or `-2^63`. -/
theorem multiply_carries_on (uni : GoString → GoString) (m : Matrix) :
    m.multiply uni =
        bigString ((m.records.map
          (fun row => (row.map (fun num => (ParseInt (Trim num) 64).1)).prod)).prod) ++
        str "\n" ∧
      (m.multiplyLoop uni).2 =
        (m.records.map (fun row => (row.map (fun num =>
          match (ParseInt (Trim num) 64).2 with
          | some err => err.Error uni
          | none => [])).flatten)).flatten ∧
      ∀ num err, (ParseInt (Trim num) 64).2 = some err →
        (err.Err = .ErrSyntax ∧ (ParseInt (Trim num) 64).1 = 0) ∨
          (err.Err = .ErrRange ∧
            ((ParseInt (Trim num) 64).1 = 2 ^ 63 - 1 ∨
              (ParseInt (Trim num) 64).1 = -2 ^ 63)) := by
  refine ⟨?_, ?_, fun num err h => ParseInt_err_value _ err h⟩
  · unfold Matrix.multiply
    rw [multiplyLoop_eq]
  · rw [multiplyLoop_eq]

/-! ## The handlers -/

/-- C14: for a grid that passes `isValid`, the `/echo` response is, row after row in
the order of the input, the cells of the row as they stand joined by commas and
followed by a newline. -/
theorem echo_renders_rows (uni : GoString → GoString) (records : List (List GoString))
    (hv : (Matrix.mk records).isValid uni = none) :
    handle uni .echo records =
      some ((records.map (fun row => Join row (str ",") ++ str "\n")).flatten) := by
  unfold handle
  simp only [hv]
  rw [renderRows_eq, List.map_map]
  rfl

theorem echo_renders_rows_witness :
    (Matrix.mk spacedGrid.records).isValid uniUnused = none ∧
      handle uniUnused .echo spacedGrid.records =
        some ((spacedGrid.records.map (fun row => Join row (str ",") ++ str "\n")).flatten) ∧
      handle uniUnused .echo spacedGrid.records = some (str " 1,2 \n 3 ,-4\n") ∧
      handle uniUnused .echo exampleGrid.records = some (str "1,2\n3,4\n") :=
  ⟨by decide, echo_renders_rows uniUnused spacedGrid.records (by decide), by decide, by decide⟩

/-- C15: for each of the five routes, when `isValid` returns an error on the grid the
response is the text of that error and nothing else; the rendering of the route is
the response only when `isValid` returns no error. -/
theorem handle_validation_error (uni : GoString → GoString) (route : Route)
    (records : List (List GoString)) (err : GoString)
    (h : (Matrix.mk records).isValid uni = some err) :
    handle uni route records = some err ∧
      ∀ route1 out, handle uni route1 records = some out → out = err := by
  have key : ∀ r, handle uni r records = some err := by
    intro r
    unfold handle
    simp only [h]
  refine ⟨key route, ?_⟩
  intro route1 out hout
  rw [key route1] at hout
  exact (Option.some.inj hout).symm

theorem handle_validation_error_witness :
    (Matrix.mk unvalidatedGrid.records).isValid uniUnused =
        some (str ("invalid input: matrix has invalid number format\n\tCaused by: " ++
          "strconv.Atoi: parsing \"99999999999999999999\": value out of range\n")) ∧
      (handle uniUnused .multiply unvalidatedGrid.records =
          some (str ("invalid input: matrix has invalid number format\n\tCaused by: " ++
            "strconv.Atoi: parsing \"99999999999999999999\": value out of range\n")) ∧
        ∀ route1 out, handle uniUnused route1 unvalidatedGrid.records = some out →
          out = str ("invalid input: matrix has invalid number format\n\tCaused by: " ++
            "strconv.Atoi: parsing \"99999999999999999999\": value out of range\n")) :=
  ⟨by decide, handle_validation_error uniUnused .multiply unvalidatedGrid.records _ (by decide)⟩

/-- Without its list of assignments, the traced inner loop is the inner loop of
`invert`, on every input. -/
theorem invertElementsTraced_fst (i : Nat) (row : List GoString) :
    ∀ (j : Nat) (rds : List (List GoString)) (log : List (Nat × Nat)),
      (invertElementsTraced i row j rds log).map Prod.fst = invertElements i row j rds := by
  induction row with
  | nil => intro j rds log; rfl
  | cons element rest ih =>
    intro j rds log
    rw [invertElementsTraced, invertElements]
    cases setCell rds j i (Trim element) with
    | none => rfl
    | some rds1 => exact ih (j + 1) rds1 _

/-- Without its list of assignments, the traced outer loop is the outer loop of
`invert`, on every input. -/
theorem invertRowsTraced_fst (rows : List (List GoString)) :
    ∀ (i : Nat) (rds : List (List GoString)) (log : List (Nat × Nat)),
      (invertRowsTraced rows i rds log).map Prod.fst = invertRows rows i rds := by
  induction rows with
  | nil => intro i rds log; rfl
  | cons row rest ih =>
    intro i rds log
    have hel := invertElementsTraced_fst i row 0 rds log
    rw [invertRowsTraced, invertRows]
    cases ht : invertElementsTraced i row 0 rds log with
    | none =>
      rw [ht] at hel
      rw [← hel]
      rfl
    | some st =>
      obtain ⟨rds1, log1⟩ := st
      rw [ht] at hel
      rw [← hel]
      exact ih (i + 1) rds1 log1

/-- The grid of the traced run is the grid `rds` of `invert`, and the traced run
panics exactly when `invert` does. -/
theorem invertTraced_fst (m : Matrix) : m.invertTraced.map Prod.fst = m.invertRds :=
  invertRowsTraced_fst m.records 0 _ []

/-- The assignments that a run of the inner loop adds: one at `(j1, i)` for each
column `j1` of the row, from `j` on. -/
theorem invertElementsTraced_count (i : Nat) (row : List GoString) (a b : Nat) :
    ∀ (j : Nat) (rds : List (List GoString)) (log : List (Nat × Nat))
      (rds1 : List (List GoString)) (log1 : List (Nat × Nat)),
      invertElementsTraced i row j rds log = some (rds1, log1) →
      log1.count (a, b) =
          log.count (a, b) + (if b = i ∧ j ≤ a ∧ a < j + row.length then 1 else 0) ∧
        log1.length = log.length + row.length := by
  induction row with
  | nil =>
    intro j rds log rds1 log1 h
    simp only [invertElementsTraced, Option.some.injEq, Prod.mk.injEq] at h
    obtain ⟨_, rfl⟩ := h
    have : ¬ (b = i ∧ j ≤ a ∧ a < j + ([] : List GoString).length) := by
      simp only [List.length_nil]
      omega
    rw [if_neg this]
    exact ⟨rfl, rfl⟩
  | cons element rest ih =>
    intro j rds log rds1 log1 h
    rw [invertElementsTraced] at h
    cases hset : setCell rds j i (Trim element) with
    | none => simp [hset] at h
    | some rds2 =>
      simp only [hset] at h
      obtain ⟨hc, hl⟩ := ih (j + 1) rds2 (log ++ [(j, i)]) rds1 log1 h
      rw [List.count_append, List.count_cons, List.count_nil] at hc
      simp only [beq_iff_eq, Prod.mk.injEq, Nat.zero_add] at hc
      simp only [List.length_append, List.length_cons, List.length_nil] at hl
      simp only [List.length_cons]
      refine ⟨?_, by omega⟩
      rw [hc]
      by_cases h1 : j = a ∧ i = b
      · have h2 : ¬ (b = i ∧ j + 1 ≤ a ∧ a < j + 1 + rest.length) := by omega
        have h3 : b = i ∧ j ≤ a ∧ a < j + (rest.length + 1) := by omega
        rw [if_pos h1, if_neg h2, if_pos h3]
      · by_cases h2 : b = i ∧ j + 1 ≤ a ∧ a < j + 1 + rest.length
        · have h3 : b = i ∧ j ≤ a ∧ a < j + (rest.length + 1) := by omega
          rw [if_neg h1, if_pos h2, if_pos h3]
        · have h3 : ¬ (b = i ∧ j ≤ a ∧ a < j + (rest.length + 1)) := by omega
          rw [if_neg h1, if_neg h2, if_neg h3]

/-- The assignments that a run of the outer loop adds over rows of `n` cells: one
at `(a, b)` for each row index `b` from `i` on and each `a` below `n`. -/
theorem invertRowsTraced_count (n : Nat) (rows : List (List GoString)) (a b : Nat)
    (hrows : ∀ row ∈ rows, row.length = n) :
    ∀ (i : Nat) (rds : List (List GoString)) (log : List (Nat × Nat))
      (rds1 : List (List GoString)) (log1 : List (Nat × Nat)),
      invertRowsTraced rows i rds log = some (rds1, log1) →
      log1.count (a, b) =
          log.count (a, b) + (if i ≤ b ∧ b < i + rows.length ∧ a < n then 1 else 0) ∧
        log1.length = log.length + rows.length * n := by
  induction rows with
  | nil =>
    intro i rds log rds1 log1 h
    simp only [invertRowsTraced, Option.some.injEq, Prod.mk.injEq] at h
    obtain ⟨_, rfl⟩ := h
    have : ¬ (i ≤ b ∧ b < i + ([] : List (List GoString)).length ∧ a < n) := by
      simp only [List.length_nil]
      omega
    rw [if_neg this]
    exact ⟨rfl, by simp⟩
  | cons row rest ih =>
    intro i rds log rds1 log1 h
    have hrow : row.length = n := hrows row (List.mem_cons_self _ _)
    rw [invertRowsTraced] at h
    cases hel : invertElementsTraced i row 0 rds log with
    | none => simp [hel] at h
    | some st =>
      obtain ⟨rds2, log2⟩ := st
      simp only [hel] at h
      obtain ⟨hc1, hl1⟩ := invertElementsTraced_count i row a b 0 rds log rds2 log2 hel
      obtain ⟨hc2, hl2⟩ :=
        ih (fun r hr => hrows r (List.mem_cons_of_mem _ hr)) (i + 1) rds2 log2 rds1 log1 h
      rw [hrow] at hc1 hl1
      simp only [List.length_cons]
      refine ⟨?_, by rw [hl2, hl1, Nat.add_mul]; omega⟩
      rw [hc2, hc1]
      by_cases h1 : b = i ∧ 0 ≤ a ∧ a < 0 + n
      · have h2 : ¬ (i + 1 ≤ b ∧ b < i + 1 + rest.length ∧ a < n) := by omega
        have h3 : i ≤ b ∧ b < i + (rest.length + 1) ∧ a < n := by omega
        rw [if_pos h1, if_neg h2, if_pos h3]
      · by_cases h2 : i + 1 ≤ b ∧ b < i + 1 + rest.length ∧ a < n
        · have h3 : i ≤ b ∧ b < i + (rest.length + 1) ∧ a < n := by omega
          rw [if_neg h1, if_pos h2, if_pos h3]
        · have h3 : ¬ (i ≤ b ∧ b < i + (rest.length + 1) ∧ a < n) := by omega
          rw [if_neg h1, if_neg h2, if_neg h3]

/-- C17: for a grid that passes `isValid` with `N` rows, the loops of `invert` run to
their end on the `N` by `N` grid `rds`: every assignment `rds[j][i]` they execute has
both indices below `N`, every position of `rds` is assigned exactly once, by the
trimmed input cell of row `i`, column `j`, and `invert` returns the text of that
grid. -/
theorem invert_total (uni : GoString → GoString) (m : Matrix) (hv : m.isValid uni = none) :
    ∃ rds writes,
      m.invertTraced = some (rds, writes) ∧
      m.invertRds = some rds ∧
      m.invert = some (renderRows rds) ∧
      isSquare m.records.length rds ∧
      (∀ p ∈ writes, p.1 < m.records.length ∧ p.2 < m.records.length) ∧
      (∀ j i, j < m.records.length → i < m.records.length →
        writes.count (j, i) = 1 ∧ cellAt rds j i = Trim (cellAt m.records i j)) ∧
      writes.length = m.records.length * m.records.length := by
  obtain ⟨hpos, hsq, hall⟩ := isValid_facts uni m hv
  have hrds := invertRds_eq m hsq
  have htie := invertTraced_fst m
  rw [hrds] at htie
  cases hrun : m.invertTraced with
  | none =>
    rw [hrun] at htie
    cases htie
  | some st =>
    obtain ⟨rds, writes⟩ := st
    rw [hrun] at htie
    have hgrid : rds = transposeTrim m.records := Option.some.inj htie
    subst hgrid
    have hcount : ∀ a b, writes.count (a, b) =
        ([] : List (Nat × Nat)).count (a, b) +
          (if 0 ≤ b ∧ b < 0 + m.records.length ∧ a < m.records.length then 1 else 0) :=
      fun a b => (invertRowsTraced_count m.records.length m.records a b hsq.2 0 _ [] _ _ hrun).1
    have hlen := (invertRowsTraced_count m.records.length m.records 0 0 hsq.2 0 _ [] _ _ hrun).2
    refine ⟨_, writes, rfl, hrds, invert_eq uni m hv, isSquare_transposeTrim m.records,
      ?_, ?_, ?_⟩
    · intro p hp
      have h1 : 0 < writes.count p := List.count_pos_iff.2 hp
      obtain ⟨a, b⟩ := p
      rw [hcount a b, List.count_nil] at h1
      by_cases hc : 0 ≤ b ∧ b < 0 + m.records.length ∧ a < m.records.length
      · dsimp only
        omega
      · rw [if_neg hc] at h1
        omega
    · intro j i hj hi
      refine ⟨?_, cellAt_transposeTrim _ j i hj hi⟩
      rw [hcount j i, List.count_nil, if_pos (by omega)]
    · rw [hlen]
      simp

theorem invert_total_witness :
    exampleGrid.isValid uniUnused = none ∧
      (∃ rds writes,
        exampleGrid.invertTraced = some (rds, writes) ∧
        exampleGrid.invertRds = some rds ∧
        exampleGrid.invert = some (renderRows rds) ∧
        isSquare exampleGrid.records.length rds ∧
        (∀ p ∈ writes,
          p.1 < exampleGrid.records.length ∧ p.2 < exampleGrid.records.length) ∧
        (∀ j i, j < exampleGrid.records.length → i < exampleGrid.records.length →
          writes.count (j, i) = 1 ∧
            cellAt rds j i = Trim (cellAt exampleGrid.records i j)) ∧
        writes.length = exampleGrid.records.length * exampleGrid.records.length) ∧
      exampleGrid.invertTraced =
        some ([[str "1", str "3"], [str "2", str "4"]], [(0, 0), (1, 0), (0, 1), (1, 1)]) ∧
      (Matrix.mk [[str "1", str "2", str "3"], [str "4", str "5"]]).invertTraced = none ∧
      (Matrix.mk [[str "1", str "2", str "3"], [str "4", str "5"]]).invert = none :=
  ⟨by decide, invert_total uniUnused exampleGrid (by decide), by decide, by decide, by decide⟩

/-! ## Surrounding spaces -/

theorem isValidElements_trimmed (uni : GoString → GoString) (row : List GoString) :
    isValidElements uni (row.map Trim) = isValidElements uni row := by
  induction row with
  | nil => rfl
  | cons element rest ih =>
    rw [List.map_cons, isValidElements, isValidElements, Trim_Trim, ih]

theorem isValidRows_trimmed (uni : GoString → GoString) (n : Nat)
    (rows : List (List GoString)) :
    isValidRows uni n (rows.map (fun row => row.map Trim)) = isValidRows uni n rows := by
  induction rows with
  | nil => rfl
  | cons row rest ih =>
    rw [List.map_cons, isValidRows, isValidRows, isValidElements_trimmed, ih, List.length_map]

theorem isValid_trimmed (uni : GoString → GoString) (m : Matrix) :
    m.trimmed.isValid uni = m.isValid uni := by
  unfold Matrix.isValid Matrix.trimmed
  simp only [List.length_map, isValidRows_trimmed]

theorem invertElements_trimmed (i : Nat) (row : List GoString) :
    ∀ (j : Nat) (rds : List (List GoString)),
      invertElements i (row.map Trim) j rds = invertElements i row j rds := by
  induction row with
  | nil => intro j rds; rfl
  | cons element rest ih =>
    intro j rds
    rw [List.map_cons, invertElements, invertElements, Trim_Trim]
    cases setCell rds j i (Trim element) with
    | none => rfl
    | some rds1 => exact ih (j + 1) rds1

theorem invertRows_trimmed (rows : List (List GoString)) :
    ∀ (i : Nat) (rds : List (List GoString)),
      invertRows (rows.map (fun row => row.map Trim)) i rds = invertRows rows i rds := by
  induction rows with
  | nil => intro i rds; rfl
  | cons row rest ih =>
    intro i rds
    rw [List.map_cons, invertRows, invertRows, invertElements_trimmed]
    cases invertElements i row 0 rds with
    | none => rfl
    | some rds1 => exact ih (i + 1) rds1

theorem invert_trimmed (m : Matrix) : m.trimmed.invert = m.invert := by
  unfold Matrix.invert Matrix.invertRds Matrix.trimmed
  simp only [List.length_map, invertRows_trimmed]

theorem parse_trimmed_rows {β : Type} (rows : List (List GoString))
    (f : Int × Option NumError → β) :
    (rows.map (fun row => row.map Trim)).map
        (fun row => row.map (fun num => f (ParseInt (Trim num) 64))) =
      rows.map (fun row => row.map (fun num => f (ParseInt (Trim num) 64))) := by
  rw [List.map_map]
  apply List.map_congr_left
  intro row _
  simp only [Function.comp_apply, List.map_map]
  apply List.map_congr_left
  intro num _
  simp only [Function.comp_apply, Trim_Trim]

theorem sum_trimmed (m : Matrix) : m.trimmed.sum = m.sum := by
  unfold Matrix.sum
  rw [sumBig_eq, sumBig_eq]
  have h := parse_trimmed_rows m.records (fun r => r.1)
  have h2 := congrArg (fun g : List (List Int) => (g.map List.sum).sum) h
  simp only [List.map_map, Function.comp_def] at h2
  simp only [Matrix.trimmed, List.map_map, Function.comp_def]
  rw [h2]

theorem multiplyLoop_trimmed (uni : GoString → GoString) (m : Matrix) :
    m.trimmed.multiplyLoop uni = m.multiplyLoop uni := by
  rw [multiplyLoop_eq, multiplyLoop_eq]
  have h := parse_trimmed_rows m.records (fun r => r.1)
  have h2 := congrArg (fun g : List (List Int) => (g.map List.prod).prod) h
  have k := parse_trimmed_rows m.records (fun r : Int × Option NumError =>
    match r.2 with
    | some err => err.Error uni
    | none => [])
  have k2 := congrArg (fun g : List (List GoString) => (g.map List.flatten).flatten) k
  simp only [List.map_map, Function.comp_def] at h2 k2
  simp only [Matrix.trimmed, List.map_map, Function.comp_def]
  rw [h2, k2]

theorem Trim_cons_space (x : Byte) (l : GoString) (hx : x = 32) : Trim (x :: l) = Trim l := by
  subst hx
  unfold Trim
  induction l using List.reverseRecOn with
  | nil => simp [List.rdropWhile_singleton]
  | append_singleton l1 y ih =>
    by_cases hy : y = 32
    · subst hy
      rw [← List.cons_append, List.rdropWhile_concat_pos _ _ _ (by simp),
        List.rdropWhile_concat_pos _ _ _ (by simp)]
      exact ih
    · have hy1 : (y == 32) = false := by simpa using hy
      rw [← List.cons_append, List.rdropWhile_concat, List.rdropWhile_concat]
      simp only [hy1, Bool.false_eq_true, if_false]
      rw [List.cons_append, List.dropWhile_cons_of_pos (by simp)]

/-- Spaces added before and after a cell do not change the trimmed cell. -/
theorem Trim_pad (pre c post : GoString) (hpre : ∀ x ∈ pre, x = 32)
    (hpost : ∀ x ∈ post, x = 32) : Trim (pre ++ c ++ post) = Trim c := by
  have h2 : Trim (pre ++ c) = Trim c := by
    induction pre with
    | nil => rfl
    | cons x rest ih =>
      rw [List.cons_append, Trim_cons_space x _ (hpre x (List.mem_cons_self _ _))]
      exact ih (fun y hy => hpre y (List.mem_cons_of_mem _ hy))
  have h1 : (pre ++ c ++ post).rdropWhile (fun c => c == 32) =
      (pre ++ c).rdropWhile (fun c => c == 32) := by
    unfold List.rdropWhile
    rw [List.reverse_append (pre ++ c) post]
    rw [List.dropWhile_append_of_pos]
    intro a ha
    simpa using hpost a (List.mem_reverse.1 ha)
  unfold Trim at h2 ⊢
  rw [h1, h2]

/-- C18: two grids that differ only by leading and trailing spaces of their cells get
the same result of `isValid`, success or error text, and the same strings from
`invert`, `sum` and `multiply`. -/
theorem spaces_irrelevant (uni : GoString → GoString) (g g1 : Matrix)
    (h : sameUpToSpaces g g1) :
    g.isValid uni = g1.isValid uni ∧
      g.invert = g1.invert ∧
      g.sum = g1.sum ∧
      g.multiply uni = g1.multiply uni := by
  unfold sameUpToSpaces at h
  refine ⟨?_, ?_, ?_, ?_⟩
  · rw [← isValid_trimmed uni g, ← isValid_trimmed uni g1, h]
  · rw [← invert_trimmed g, ← invert_trimmed g1, h]
  · rw [← sum_trimmed g, ← sum_trimmed g1, h]
  · unfold Matrix.multiply
    rw [← multiplyLoop_trimmed uni g, ← multiplyLoop_trimmed uni g1, h]

theorem spaces_irrelevant_witness :
    sameUpToSpaces spacedGrid (Matrix.mk [[str "1  ", str "  2"], [str "3", str " -4 "]]) ∧
      (spacedGrid.isValid uniUnused =
          (Matrix.mk [[str "1  ", str "  2"], [str "3", str " -4 "]]).isValid uniUnused ∧
        spacedGrid.invert = (Matrix.mk [[str "1  ", str "  2"], [str "3", str " -4 "]]).invert ∧
        spacedGrid.sum = (Matrix.mk [[str "1  ", str "  2"], [str "3", str " -4 "]]).sum ∧
        spacedGrid.multiply uniUnused =
          (Matrix.mk [[str "1  ", str "  2"], [str "3", str " -4 "]]).multiply uniUnused) :=
  ⟨by decide, spaces_irrelevant uniUnused spacedGrid
    (Matrix.mk [[str "1  ", str "  2"], [str "3", str " -4 "]]) (by decide)⟩

/-! ## Literals outside the range of `int` -/

theorem parseUintLoop_digits_err (s0 : GoString) (cs : List Byte) (n : Nat) (e : NumError)
    (hd : ∀ c ∈ cs, isDigit c = true)
    (h : (parseUintLoop s0 (2 ^ 64 - 1) cs n).2 = some e) : e.Err = .ErrRange := by
  induction cs generalizing n with
  | nil => simp [parseUintLoop] at h
  | cons c cs ih =>
    have hc : isDigit c = true := hd c (List.mem_cons_self _ _)
    simp only [isDigit, Bool.and_eq_true, decide_eq_true_eq] at hc
    have h1 : ¬ (c.val - 48 ≥ 10) := by omega
    simp only [parseUintLoop, hc, and_self, if_true, h1, if_false] at h
    split at h
    · simp only [Option.some.injEq] at h
      subst h
      rfl
    · split at h
      · simp only [Option.some.injEq] at h
        subst h
        rfl
      · exact ih _ (fun x hx => hd x (List.mem_cons_of_mem _ hx)) h

theorem literal_digits (c : Byte) (rest : List Byte) (h : isIntLiteral (c :: rest) = true) :
    (if c == 43 then rest else if c == 45 then rest else c :: rest) ≠ [] ∧
      ∀ x ∈ (if c == 43 then rest else if c == 45 then rest else c :: rest),
        isDigit x = true := by
  by_cases h43 : c = 43
  · subst h43
    simp only [isIntLiteral, beq_self_eq_true, Bool.true_or, if_true, Bool.and_eq_true,
      Bool.not_eq_true', List.isEmpty_eq_false, List.all_eq_true] at h
    simp only [beq_self_eq_true, if_true]
    exact ⟨fun h0 => by simp [h0] at h, h.2⟩
  · have h2 : (c == 43) = false := by simpa using h43
    by_cases h45 : c = 45
    · subst h45
      simp only [isIntLiteral, beq_self_eq_true, Bool.or_true, if_true, Bool.and_eq_true,
        Bool.not_eq_true', List.isEmpty_eq_false, List.all_eq_true] at h
      simp only [h2, Bool.false_eq_true, if_false, beq_self_eq_true, if_true]
      exact ⟨fun h0 => by simp [h0] at h, h.2⟩
    · have h1 : (c == 45) = false := by simpa using h45
      simp only [isIntLiteral, h1, h2, Bool.or_false, Bool.false_eq_true, if_false,
        List.all_eq_true] at h
      simp only [h1, h2, Bool.false_eq_true, if_false]
      exact ⟨by simp, h⟩

theorem ParseInt_literal_err (s : GoString) (e : NumError) (hl : isIntLiteral s = true)
    (h : (ParseInt s 64).2 = some e) : e.Err = .ErrRange := by
  cases s with
  | nil => simp [isIntLiteral] at hl
  | cons c rest =>
    obtain ⟨hne, hd⟩ := literal_digits c rest hl
    rw [ParseInt_cons] at h
    generalize (if c == 43 then rest else if c == 45 then rest else c :: rest) = ds at h hne hd
    split at h
    · rename_i x1 f1 n1 hpu
      have hloop : (parseUintLoop ds (2 ^ 64 - 1) ds 0).2 = some ⟨f1, n1, .ErrSyntax⟩ := by
        have : (ParseUint ds 64).2 = some ⟨f1, n1, .ErrSyntax⟩ := by rw [hpu]
        simpa [ParseUint, hne] using this
      have := parseUintLoop_digits_err ds ds 0 _ hd hloop
      simp at this
    · split at h
      · simp only [Option.some.injEq] at h
        subst h
        rfl
      · split at h
        · simp only [Option.some.injEq] at h
          subst h
          rfl
        · simp at h

theorem literal_short_inRange (s : GoString) (hl : isIntLiteral s = true)
    (hlen : s.length < 19) : inIntRange (literalValue s) := by
  cases s with
  | nil => simp [isIntLiteral] at hl
  | cons c rest =>
    obtain ⟨_, hd⟩ := literal_digits c rest hl
    have hpow : ∀ ds : List Byte, ds.length ≤ 18 → (∀ x ∈ ds, isDigit x = true) →
        digitsValueFrom 0 ds < 2 ^ 63 := by
      intro ds hlen hd
      have h1 := digitsValueFrom_lt ds 0 hd
      have h2 : 10 ^ ds.length ≤ 10 ^ 18 := Nat.pow_le_pow_right (by norm_num) hlen
      omega
    simp only [List.length_cons] at hlen
    unfold inIntRange
    by_cases h43 : c = 43
    · subst h43
      simp only [beq_self_eq_true, if_true] at hd
      have := hpow rest (by omega) hd
      simp only [literalValue, show ((43 : Byte) == 45) = false by decide, Bool.false_eq_true,
        if_false, beq_self_eq_true, if_true]
      omega
    · have h2 : (c == 43) = false := by simpa using h43
      by_cases h45 : c = 45
      · subst h45
        simp only [h2, Bool.false_eq_true, if_false, beq_self_eq_true, if_true] at hd
        have := hpow rest (by omega) hd
        simp only [literalValue, beq_self_eq_true, if_true]
        omega
      · have h1 : (c == 45) = false := by simpa using h45
        simp only [h1, h2, Bool.false_eq_true, if_false] at hd
        have := hpow (c :: rest) (by simp only [List.length_cons]; omega) hd
        simp only [literalValue, h1, h2, Bool.false_eq_true, if_false]
        omega

/-- On an integer literal outside the range of `int`, `Atoi` returns a range error
that names the literal. -/
theorem Atoi_range (s : GoString) (hl : isIntLiteral s = true)
    (hr : ¬ inIntRange (literalValue s)) :
    (Atoi s).2 = some ⟨str "Atoi", s, .ErrRange⟩ := by
  have hslow : ¬ (0 < s.length ∧ s.length < 19) :=
    fun hf => hr (literal_short_inRange s hl hf.2)
  cases herr : (Atoi s).2 with
  | none => exact absurd (Atoi_ok s herr).2 hr
  | some e =>
    obtain ⟨hfunc, hnum⟩ := Atoi_err s e herr
    have hkind : e.Err = .ErrRange := by
      rw [Atoi_slow s hslow] at herr
      split at herr
      · rename_i i e1 hp
        simp only [Option.some.injEq] at herr
        subst herr
        exact ParseInt_literal_err s e1 hl (by rw [hp])
      · simp at herr
    rcases e with ⟨f, n, k⟩
    simp only at hfunc hnum hkind
    subst hfunc hnum hkind
    rfl

/-- On a grid with a row and with all rows of the right length, `isValid` ends at
the first cell, in row-major order, that does not parse. -/
theorem isValid_square_eq (uni : GoString → GoString) (m : Matrix) (hne : m.records ≠ [])
    (hsq : ∀ row ∈ m.records, row.length = m.records.length) :
    m.isValid uni =
      match m.records.flatten.find? (fun cell => !parses cell) with
      | some cell => (cellError cell).map (errMsg uni)
      | none => none := by
  have hlen : ¬ m.records.length = 0 := fun h0 => hne (List.length_eq_zero.1 h0)
  have happ := isValidRows_append uni m.records.length m.records [] hsq
  rw [List.append_nil] at happ
  unfold Matrix.isValid
  simp only [hlen, if_false]
  rw [happ]
  rfl

/-- C19: a non-empty square grid with a cell that, trimmed, is an integer literal
above the largest or below the smallest 64-bit `int` is not accepted: `isValid`
returns the invalid-number-format error of the first cell, in row-major order, that
does not parse, and that error is the range error of `Atoi` when the cell is a
literal. -/
theorem isValid_rejects_beyond_int (uni : GoString → GoString) (m : Matrix)
    (hne : m.records ≠ [])
    (hsq : ∀ row ∈ m.records, row.length = m.records.length)
    (hbig : ∃ row ∈ m.records, ∃ cell ∈ row,
      isIntLiteral (Trim cell) = true ∧ ¬ inIntRange (literalValue (Trim cell))) :
    m.isValid uni ≠ none ∧
      ∃ cell err,
        m.records.flatten.find? (fun cell => !parses cell) = some cell ∧
        cellError cell = some err ∧
        m.isValid uni =
          some (str "invalid input: matrix has invalid number format\n" ++
            str "\tCaused by: " ++ err.Error uni ++ str "\n") ∧
        (isIntLiteral (Trim cell) = true → err = ⟨str "Atoi", Trim cell, .ErrRange⟩) := by
  have heq := isValid_square_eq uni m hne hsq
  obtain ⟨row, hrow, big, hbigmem, hlit, hout⟩ := hbig
  have hnp : parses big = false := by
    cases hp : parses big with
    | false => rfl
    | true => exact absurd ((parses_iff big).1 hp).2 hout
  cases hf : m.records.flatten.find? (fun cell => !parses cell) with
  | none =>
    rw [List.find?_eq_none] at hf
    have := hf big (List.mem_flatten.2 ⟨row, hrow, hbigmem⟩)
    simp [hnp] at this
  | some cell =>
    have hc := List.find?_some hf
    obtain ⟨err, herr⟩ := cellError_of_not_parses cell hc
    have hval : m.isValid uni =
        some (str "invalid input: matrix has invalid number format\n" ++
          str "\tCaused by: " ++ err.Error uni ++ str "\n") := by
      rw [heq, hf]
      simp only [herr, Option.map_some', errMsg, errMatrixInvalidNumber]
    refine ⟨?_, cell, err, rfl, herr, hval, ?_⟩
    · rw [hval]
      simp
    · intro hcl
      have hnr : ¬ inIntRange (literalValue (Trim cell)) := by
        intro hr
        have hp := (parses_iff cell).2 ⟨hcl, hr⟩
        simp [hp] at hc
      have := Atoi_range (Trim cell) hcl hnr
      unfold cellError at herr
      rw [this] at herr
      exact (Option.some.inj herr).symm

theorem isValid_rejects_beyond_int_witness :
    (Matrix.mk [[str "1", str "-9223372036854775809"], [str "3", str "4"]]).isValid uniUnused
        ≠ none ∧
      (∃ cell err,
        (Matrix.mk [[str "1", str "-9223372036854775809"], [str "3", str "4"]]).records.flatten.find?
          (fun cell => !parses cell) = some cell ∧
        cellError cell = some err ∧
        (Matrix.mk [[str "1", str "-9223372036854775809"], [str "3", str "4"]]).isValid uniUnused =
          some (str "invalid input: matrix has invalid number format\n" ++
            str "\tCaused by: " ++ err.Error uniUnused ++ str "\n") ∧
        (isIntLiteral (Trim cell) = true → err = ⟨str "Atoi", Trim cell, .ErrRange⟩)) :=
  isValid_rejects_beyond_int uniUnused
    (Matrix.mk [[str "1", str "-9223372036854775809"], [str "3", str "4"]])
    (by decide) (by decide) (by decide)

/-! ## The slice of `flatten` -/

theorem flatten_of_result (m : Matrix) (body : GoString)
    (h : m.records.foldl (fun result row => result ++ Join row (str ",") ++ str ",") [] =
      body ++ str ",") :
    m.flatten = some (body ++ str "\n") := by
  unfold Matrix.flatten
  rw [h]
  have hlen : ¬ (body ++ str ",").length = 0 := by simp [str]
  simp only [hlen, if_false]
  have h1 : (body ++ str ",").length - 1 = body.length := by simp [str]
  rw [h1, List.take_left]

/-- C20: the slice `result[:len(result)-1]` of `flatten` fails exactly for the grid
without rows; for a grid with a row `result` ends with a comma, which is the
character dropped.  A grid that passes `isValid` has a row, and for the grid without
rows the `/flatten` handler answers with the `Empty` error. -/
theorem flatten_slice (uni : GoString → GoString) (m : Matrix) :
    (m.flatten = none ↔ m.records = []) ∧
      (m.records ≠ [] →
        ∃ body,
          m.records.foldl (fun result row => result ++ Join row (str ",") ++ str ",") [] =
            body ++ str "," ∧
          m.flatten = some (body ++ str "\n")) ∧
      (m.isValid uni = none → m.flatten ≠ none) ∧
      handle uni .flatten [] = some errMatrixEmpty := by
  have hbody : m.records ≠ [] →
      ∃ body,
        m.records.foldl (fun result row => result ++ Join row (str ",") ++ str ",") [] =
          body ++ str "," ∧
        m.flatten = some (body ++ str "\n") := by
    intro hne
    have hsplit := List.dropLast_concat_getLast hne
    have hfold := flatten_fold_eq m.records
    rw [← hsplit, List.map_append, List.flatten_append] at hfold
    simp only [List.map_cons, List.map_nil, List.flatten_cons, List.flatten_nil,
      List.append_nil] at hfold
    rw [hsplit, ← List.append_assoc] at hfold
    exact ⟨_, hfold, flatten_of_result m _ hfold⟩
  have hiff : m.flatten = none ↔ m.records = [] := by
    constructor
    · intro hnone
      by_contra hne
      obtain ⟨body, _, hsome⟩ := hbody hne
      rw [hsome] at hnone
      cases hnone
    · intro h0
      simp [Matrix.flatten, h0]
  refine ⟨hiff, hbody, ?_, ?_⟩
  · intro hv hnone
    exact ((isValid_eq_none uni m).1 hv).1 (hiff.1 hnone)
  · rfl

end LeagueMatrix
